import Mathlib

/-!
Verification development for the zapier-history-hacker repository.

Shallow embedding of the core of src/analyzer.py (event normalization,
field resolution, the query DSL interpreter) and src/cache.py (QueryCache).
Python dicts are modelled as insertion-ordered association lists, Python
scalars as the inductive PyVal, pandas DataFrames as an explicit column
list plus rows of optional cells (None/NaN cells are Option.none).

All string scanning is done over List Char with structural (or fuel-bounded)
recursion so that every definition evaluates inside the kernel.
-/

namespace ZapHacker

/-- A Python value as it appears in a raw event payload.  Lists and dicts
are represented by opaque markers: the analyzer only ever tests them with
isinstance and never resolves them as scalars. -/
inductive PyVal where
  | vstr (s : String)
  | vint (n : Int)
  | vbool (b : Bool)
  | vnull
  | vlist
  | vdict
deriving DecidableEq, Repr

/-- analyzer._is_scalar: x is not None and not isinstance(x, (list, dict)). -/
def is_scalar : PyVal → Bool
  | .vnull => false
  | .vlist => false
  | .vdict => false
  | _ => true

/-- Python str(v) for the values the analyzer passes through it. -/
def pyStr : PyVal → String
  | .vstr s => s
  | .vint n => toString n
  | .vbool b => if b then "True" else "False"
  | .vnull => "None"
  | .vlist => "[...]"
  | .vdict => "dict"

/-- Python truthiness, used by the object_id or "" idiom in normalize_events.
Empty-list/dict falsiness is not observable through the markers; the
normalizer only reaches this through object_id, which is scalar in practice. -/
def pyTruthy : PyVal → Bool
  | .vnull => false
  | .vstr s => s ≠ ""
  | .vint n => n ≠ 0
  | .vbool b => b
  | .vlist => true
  | .vdict => true

/-- ASCII whitespace recognized by Python str.strip / int(). -/
def isPySpace (c : Char) : Bool :=
  c = ' ' || c = '\t' || c = '\n' || c = '\r' || c = Char.ofNat 11 || c = Char.ofNat 12

/-- Python str.strip() over an explicit character list. -/
def stripWs (cs : List Char) : List Char :=
  ((cs.dropWhile isPySpace).reverse.dropWhile isPySpace).reverse

/-- Python s.split(sep) for a single-character separator. -/
def splitChar (sep : Char) (cs : List Char) : List (List Char) :=
  cs.foldr
    (fun c acc =>
      if c = sep then [] :: acc
      else
        match acc with
        | h :: t => (c :: h) :: t
        | [] => [[c]])
    [[]]

/-- Fuel-bounded worker for Python s.split(sep) with a multi-character
separator (used for key.split("__")).  The fuel only bounds the number of
recursive steps; splitSub always supplies enough. -/
def splitSubFuel (sep : List Char) : Nat → List Char → List (List Char)
  | 0, cs => [cs]
  | _ + 1, [] => [[]]
  | fuel + 1, c :: rest =>
      if sep.isPrefixOf (c :: rest) then
        [] :: splitSubFuel sep fuel ((c :: rest).drop sep.length)
      else
        match splitSubFuel sep fuel rest with
        | h :: t => (c :: h) :: t
        | [] => [[c]]

/-- Python s.split(sep) for a non-empty multi-character separator. -/
def splitSub (sep cs : List Char) : List (List Char) :=
  splitSubFuel sep (cs.length + 1) cs

/-- key.startswith(p), kernel-evaluable. -/
def strStartsWith (s p : String) : Bool := p.toList.isPrefixOf s.toList

/-- key.endswith(p), kernel-evaluable. -/
def strEndsWith (s p : String) : Bool := p.toList.isSuffixOf s.toList

/-- Word characters in the sense of the regexes used by the analyzer. -/
def isWordChar (c : Char) : Bool := c.isAlphanum || c = '_'

/-- Fuel-bounded worker splitting a character list into maximal runs of
word characters and maximal runs of non-word characters. -/
def splitRunsFuel : Nat → List Char → List (List Char)
  | 0, _ => []
  | _ + 1, [] => []
  | fuel + 1, c :: rest =>
      let run := rest.takeWhile (fun d => isWordChar d = isWordChar c)
      (c :: run) :: splitRunsFuel fuel (rest.drop run.length)

/-- Split into maximal word/non-word runs (models the regex word boundary). -/
def splitRuns (cs : List Char) : List (List Char) :=
  splitRunsFuel (cs.length + 1) cs

/-- Digits of an integer literal after the first digit; Python int() allows
single underscores between digits. -/
def digitTailOk : List Char → Bool
  | [] => true
  | ['_'] => false
  | '_' :: c :: rest => c.isDigit && digitTailOk (c :: rest)
  | c :: rest => c.isDigit && digitTailOk rest

/-- A valid digit group for Python int(): nonempty, digits with single
interior underscores. -/
def digitGroupOk : List Char → Bool
  | [] => false
  | c :: rest => c.isDigit && digitTailOk rest

/-- Numeric value of a digit group, skipping underscores. -/
def digitsValue (cs : List Char) : Nat :=
  cs.foldl (fun acc c => if c = '_' then acc else acc * 10 + (c.toNat - '0'.toNat)) 0

/-- Python int(s) on an already stripped character list: optional sign then
a digit group. -/
def pyIntCore (cs : List Char) : Option Int :=
  match cs with
  | '+' :: rest => if digitGroupOk rest then some (Int.ofNat (digitsValue rest)) else Option.none
  | '-' :: rest => if digitGroupOk rest then some (-(Int.ofNat (digitsValue rest))) else Option.none
  | rest => if digitGroupOk rest then some (Int.ofNat (digitsValue rest)) else Option.none

/-- Python int(s): strips surrounding whitespace, then parses. -/
def pyIntChars (cs : List Char) : Option Int :=
  pyIntCore (stripWs cs)

/-! ## Field resolution (src/analyzer.py lines 346-432) -/

/-- A raw event payload: a Python dict in insertion order, keys unique. -/
abbrev RawEvent := List (String × PyVal)

/-- event_data.get(k): first binding of k, if any (value may be vnull). -/
def dget (ev : RawEvent) (k : String) : Option PyVal :=
  match ev.find? (fun kv => kv.1 = k) with
  | some kv => some kv.2
  | Option.none => Option.none

/-- The root of a namespaced key: parts[1] of key.split("__"), as in
_first_io_scalar and _first_output_scalar. -/
def keyRoot (k : String) : Option String :=
  ((splitSub "__".toList k.toList).map String.mk).get? 1

/-- Truthiness of the prefer_root argument (a str or None in the source):
None and the empty string are falsy. -/
def rootTruthy : Option String → Bool
  | Option.none => false
  | some r => r ≠ ""

/-- One candidate collected by the scanners: (len(k), k, value, root). -/
structure Hit where
  len : Nat
  key : String
  val : String
  root : Option String
deriving DecidableEq, Repr

/-- hits.sort(key=lambda t: t[0]); hits[0] — the head of a stable sort by
key length is the first hit of minimal length, computed here by a single
left fold that replaces the accumulator only on strictly smaller length. -/
def firstMinLen (hits : List Hit) : Option Hit :=
  hits.foldl
    (fun acc h =>
      match acc with
      | Option.none => some h
      | some a => if h.len < a.len then some h else some a)
    Option.none

/-- Does key end with "__" ++ suf for one of the given suffixes? -/
def suffixAny (sufs : List String) (k : String) : Bool :=
  sufs.any (fun suf => strEndsWith k ("__" ++ suf))

/-- The _scan closure of _first_io_scalar: collect hits for keys with the
given direction prefix, matching suffix and scalar value; when prefer is
set and prefer_root is truthy, keep only keys whose root equals it.
Values are str(v).strip(). -/
def scanHits (ev : RawEvent) (pfx : String) (sufs : List String)
    (prefer_root : Option String) (prefer : Bool) : List Hit :=
  ev.filterMap (fun kv =>
    if strStartsWith kv.1 pfx ∧ suffixAny sufs kv.1 ∧ is_scalar kv.2 ∧
        ¬(prefer = true ∧ rootTruthy prefer_root = true ∧ keyRoot kv.1 ≠ prefer_root) then
      some ⟨kv.1.toList.length, kv.1, String.mk (stripWs (pyStr kv.2).toList), keyRoot kv.1⟩
    else Option.none)

/-- One _scan call: sorted-by-length head of the collected hits. -/
def scanGroup (ev : RawEvent) (pfx : String) (sufs : List String)
    (prefer_root : Option String) (prefer : Bool) : Option (String × Option String) :=
  (firstMinLen (scanHits ev pfx sufs prefer_root prefer)).map (fun h => (h.val, h.root))

/-- analyzer._first_io_scalar: four-step priority ladder
output+prefer, any output, input+prefer, any input. -/
def first_io_scalar (ev : RawEvent) (sufs : List String)
    (prefer_root : Option String) : Option String × Option String :=
  match scanGroup ev "output__" sufs prefer_root true with
  | some vr => (some vr.1, vr.2)
  | Option.none =>
    match scanGroup ev "output__" sufs prefer_root false with
    | some vr => (some vr.1, vr.2)
    | Option.none =>
      match scanGroup ev "input__" sufs prefer_root true with
      | some vr => (some vr.1, vr.2)
      | Option.none =>
        match scanGroup ev "input__" sufs prefer_root false with
        | some vr => (some vr.1, vr.2)
        | Option.none => (Option.none, Option.none)

/-- analyzer._first_output_scalar, step 2 candidates: any output key ending
in "__" ++ suffix with a scalar value; value is str(v) (no strip). -/
def outputHits (ev : RawEvent) (suffix : String) : List Hit :=
  ev.filterMap (fun kv =>
    if strStartsWith kv.1 "output__" ∧ strEndsWith kv.1 ("__" ++ suffix) ∧
        is_scalar kv.2 then
      some ⟨kv.1.toList.length, kv.1, pyStr kv.2, keyRoot kv.1⟩
    else Option.none)

/-- analyzer._first_output_scalar: if prefer_root is truthy, the first key
in iteration order starting with output__(prefer_root)__ and ending in the
suffix wins; otherwise any output key, preferring shorter keys. -/
def first_output_scalar (ev : RawEvent) (suffix : String)
    (prefer_root : Option String) : Option String × Option String :=
  match
    (if rootTruthy prefer_root then
      ev.find? (fun kv =>
        strStartsWith kv.1 ("output__" ++ prefer_root.getD "" ++ "__") &&
        strEndsWith kv.1 ("__" ++ suffix) && is_scalar kv.2)
    else Option.none)
  with
  | some kv => (some (pyStr kv.2), prefer_root)
  | Option.none =>
    match firstMinLen (outputHits ev suffix) with
    | some h => (some h.val, h.root)
    | Option.none => (Option.none, Option.none)

/-! ## Event normalization (src/analyzer.py lines 9-135) -/

/-- The mutable locals of the key-scanning loop in normalize_events. -/
structure CanonAcc where
  input_event_id : Option PyVal := Option.none
  email : Option PyVal := Option.none
  event_url : Option PyVal := Option.none
  zap_url : Option PyVal := Option.none
  updated_by_name : Option PyVal := Option.none
  fbc : Option PyVal := Option.none
  fbp : Option PyVal := Option.none
  ip_address : Option PyVal := Option.none
  landing_url : Option PyVal := Option.none
  user_agent : Option PyVal := Option.none
  utm_campaign : Option PyVal := Option.none
  utm_content : Option PyVal := Option.none
  utm_medium : Option PyVal := Option.none
  utm_source : Option PyVal := Option.none
  contact_name : Option PyVal := Option.none
  contact_phone : Option PyVal := Option.none
  contact_phone_country : Option PyVal := Option.none
deriving DecidableEq, Repr

/-- One iteration of the elif chain over (key, value) in normalize_events.
Unguarded fields are overwritten on every match (last key wins); the
updated_by_name and contact fields are only set on their first match. -/
def stepCanon (acc : CanonAcc) (k : String) (v : PyVal) : CanonAcc :=
  if strStartsWith k "output__" ∧ strEndsWith k "__event_id" then
    { acc with input_event_id := some v }
  else if strEndsWith k "__primary_email" then { acc with email := some v }
  else if strEndsWith k "__event_url" then { acc with event_url := some v }
  else if strEndsWith k "__parent_task_history_link" then { acc with zap_url := some v }
  else if strEndsWith k "__updated_by_name" ∧ acc.updated_by_name = Option.none then
    { acc with updated_by_name := some v }
  else if strEndsWith k "__handl_fbc" then { acc with fbc := some v }
  else if strEndsWith k "__handl_fbp" then { acc with fbp := some v }
  else if strEndsWith k "__handl_ip" then { acc with ip_address := some v }
  else if strEndsWith k "__handl_url" then { acc with landing_url := some v }
  else if strEndsWith k "__handl_user_agent" then { acc with user_agent := some v }
  else if strEndsWith k "__handl_utm_campaign" then { acc with utm_campaign := some v }
  else if strEndsWith k "__handl_utm_content" then { acc with utm_content := some v }
  else if strEndsWith k "__handl_utm_medium" then { acc with utm_medium := some v }
  else if strEndsWith k "__handl_utm_source" then { acc with utm_source := some v }
  else if strEndsWith k "__lead__contact__name" ∧ acc.contact_name = Option.none then
    { acc with contact_name := some v }
  else if strEndsWith k "__lead__contact__phone__phone" ∧ acc.contact_phone = Option.none then
    { acc with contact_phone := some v }
  else if strEndsWith k "__lead__contact__phone__country" ∧ acc.contact_phone_country = Option.none then
    { acc with contact_phone_country := some v }
  else acc

/-- A cell of the events DataFrame; Option.none is pandas NaN. -/
abbrev Cell := Option PyVal

/-- A normalized record: one DataFrame row as an ordered column/cell list. -/
abbrev Row := List (String × Cell)

/-- Read a cell by column name; a missing column reads as NaN. -/
def getCell (r : Row) (c : String) : Cell :=
  match r.find? (fun kv => kv.1 = c) with
  | some kv => kv.2
  | Option.none => Option.none

/-- Store a Python value into a DataFrame cell; pandas unifies None with NaN. -/
def toCell : Option PyVal → Cell
  | some .vnull => Option.none
  | x => x

/-- str(event_data.get("object_id") or ""). -/
def objRootOf (ev : RawEvent) : String :=
  match dget ev "object_id" with
  | some v => if pyTruthy v then pyStr v else ""
  | Option.none => ""

/-- The base dict built for one event in normalize_events, in the exact
column order of the source, with event_name and isfire appended. -/
def normalizeRow (event_id : String) (ev : RawEvent) : Row :=
  let c := ev.foldl (fun acc kv => stepCanon acc kv.1 kv.2) {}
  let obj_root := objRootOf ev
  let ev_name := (first_output_scalar ev "event_name" (some obj_root)).1
  let isfire_s := (first_output_scalar ev "isfire" Option.none).1
  [("event_id", some (.vstr event_id)),
   ("input_event_id", toCell c.input_event_id),
   ("date", toCell (dget ev "date")),
   ("status", toCell (dget ev "status")),
   ("object_id", toCell (dget ev "object_id")),
   ("object_title", toCell (dget ev "object_title")),
   ("email", toCell c.email),
   ("event_url", toCell c.event_url),
   ("zap_url", toCell c.zap_url),
   ("updated_by_name", toCell c.updated_by_name),
   ("fbc", toCell c.fbc),
   ("fbp", toCell c.fbp),
   ("ip_address", toCell c.ip_address),
   ("landing_url", toCell c.landing_url),
   ("user_agent", toCell c.user_agent),
   ("utm_campaign", toCell c.utm_campaign),
   ("utm_content", toCell c.utm_content),
   ("utm_medium", toCell c.utm_medium),
   ("utm_source", toCell c.utm_source),
   ("contact_name", toCell c.contact_name),
   ("contact_phone", toCell c.contact_phone),
   ("contact_phone_country", toCell c.contact_phone_country),
   ("event_name", ev_name.map PyVal.vstr),
   ("isfire", isfire_s.map PyVal.vstr)]

/-- A pandas DataFrame: the column index plus the rows. -/
structure DataFrame where
  columns : List String
  rows : List Row
deriving DecidableEq, Repr

/-- pd.DataFrame(rows): columns are the union of row keys in first-seen order. -/
def colUnion (rows : List Row) : List String :=
  rows.foldl (fun acc r => acc ++ ((r.map Prod.fst).filter (fun c => !acc.contains c))) []

/-- analyzer.normalize_events.  The second component models df_kv, which the
source always leaves empty (kv_rows is never populated). -/
def normalize_events (raw : List (String × RawEvent)) : DataFrame × List Row :=
  let rows := raw.map (fun p => normalizeRow p.1 p.2)
  (⟨colUnion rows, rows⟩, [])

/-! ## WHERE evaluation (src/analyzer.py lines 221-255)

The primary path hands the rewritten expression to df.query.  We model
df.query for the fragment the analyzer's documented queries use:
conjunctions of col == literal comparisons (string, boolean or integer
literals).  Anything outside the fragment is a parse failure, which the
source catches and routes to the restricted fallback evaluator. -/

/-- A literal in a query predicate. -/
inductive QLit where
  | lstr (s : String)
  | lint (n : Int)
  | lbool (b : Bool)
deriving DecidableEq, Repr

/-- Python/pandas elementwise equality of a cell against a literal.
NaN compares unequal to everything; bool and int unify as in Python
(True == 1); a string never equals a bool or an int. -/
def pyEq : Cell → QLit → Bool
  | Option.none, _ => false
  | some (.vstr a), .lstr b => a = b
  | some (.vstr _), .lint _ => false
  | some (.vstr _), .lbool _ => false
  | some (.vint n), .lint m => n = m
  | some (.vint n), .lbool b => n = (if b then 1 else 0)
  | some (.vint _), .lstr _ => false
  | some (.vbool x), .lbool y => x = y
  | some (.vbool x), .lint m => (if x then (1 : Int) else 0) = m
  | some (.vbool _), .lstr _ => false
  | some .vnull, _ => false
  | some .vlist, _ => false
  | some .vdict, _ => false

/-- re.sub(r"(true|false)" with word boundaries, case-insensitive): rewrite
every standalone word true/false to True/False. -/
def boolSub (cs : List Char) : List Char :=
  ((splitRuns cs).map (fun run =>
    let low := run.map Char.toLower
    if low = "true".toList then "True".toList
    else if low = "false".toList then "False".toList
    else run)).flatten

/-- Parse one literal of the df.query fragment; returns the literal and the
remaining input. -/
def parseLit (cs : List Char) : Option (QLit × List Char) :=
  match cs with
  | '"' :: rest =>
      let s := rest.takeWhile (fun c => c ≠ '"')
      (match rest.drop s.length with
       | '"' :: rest2 => some (.lstr (String.mk s), rest2)
       | _ => Option.none)
  | 'T' :: 'r' :: 'u' :: 'e' :: rest =>
      (match rest with
       | c :: _ => if isWordChar c then Option.none else some (.lbool true, rest)
       | [] => some (.lbool true, rest))
  | 'F' :: 'a' :: 'l' :: 's' :: 'e' :: rest =>
      (match rest with
       | c :: _ => if isWordChar c then Option.none else some (.lbool false, rest)
       | [] => some (.lbool false, rest))
  | '-' :: rest =>
      let ds := rest.takeWhile Char.isDigit
      if ds = [] then Option.none
      else some (.lint (-(Int.ofNat (digitsValue ds))), rest.drop ds.length)
  | rest =>
      let ds := rest.takeWhile Char.isDigit
      if ds = [] then Option.none
      else some (.lint (Int.ofNat (digitsValue ds)), rest.drop ds.length)

/-- Fuel-bounded parse of an and-conjunction of col == literal atoms. -/
def parseConjFuel : Nat → List Char → Option (List (String × QLit))
  | 0, _ => Option.none
  | fuel + 1, cs =>
      let cs1 := cs.dropWhile isPySpace
      let ident := cs1.takeWhile isWordChar
      if ident = [] then Option.none
      else
        match (cs1.drop ident.length).dropWhile isPySpace with
        | '=' :: '=' :: cs3 =>
            (match parseLit (cs3.dropWhile isPySpace) with
             | some (lit, cs4) =>
                 let cs5 := cs4.dropWhile isPySpace
                 if cs5 = [] then some [(String.mk ident, lit)]
                 else if "and".toList.isPrefixOf cs5 then
                   (match parseConjFuel fuel (cs5.drop 3) with
                    | some atoms => some ((String.mk ident, lit) :: atoms)
                    | Option.none => Option.none)
                 else Option.none
             | Option.none => Option.none)
        | _ => Option.none

/-- df.query on the modelled fragment: parse the conjunction, require every
named column to exist, then keep the rows on which every atom holds.
A failure (Except.error) is the modelled pandas exception that sends the
source to its fallback evaluator. -/
def dfQueryFilter (df : DataFrame) (expr : List Char) : Except Unit DataFrame :=
  match parseConjFuel (expr.length + 1) expr with
  | Option.none => .error ()
  | some atoms =>
      if atoms.all (fun a => df.columns.contains a.1) then
        .ok { df with rows := df.rows.filter (fun r => atoms.all (fun a => pyEq (getCell r a.1) a.2)) }
      else .error ()

/-- re.split with a case-insensitive word-boundary "and": split the clause
at standalone and words. -/
def splitOnAnd (cs : List Char) : List (List Char) :=
  (splitRuns cs).foldr
    (fun run acc =>
      if run.map Char.toLower = "and".toList then [] :: acc
      else
        match acc with
        | h :: t => (run ++ h) :: t
        | [] => [run])
    [[]]

/-- re.match of (word)\s*==\s*"(.*)" against a token: anchored prefix match,
the string group is greedy up to the last double quote. -/
def matchStrEq (t : List Char) : Option (String × String) :=
  let ident := t.takeWhile isWordChar
  if ident = [] then Option.none
  else
    match ((t.drop ident.length).dropWhile isPySpace) with
    | '=' :: '=' :: t3 =>
        (match (t3.dropWhile isPySpace) with
         | '"' :: t4 =>
             let rev := t4.reverse
             let tail := rev.takeWhile (fun c => c ≠ '"')
             if tail.length = rev.length then Option.none
             else some (String.mk ident, String.mk (t4.take (t4.length - tail.length - 1)))
         | _ => Option.none)
    | _ => Option.none

/-- re.match of (word)\s*==\s*(True|False) with re.I against a token. -/
def matchBoolEq (t : List Char) : Option (String × Bool) :=
  let ident := t.takeWhile isWordChar
  if ident = [] then Option.none
  else
    match ((t.drop ident.length).dropWhile isPySpace) with
    | '=' :: '=' :: t3 =>
        let t4 := t3.dropWhile isPySpace
        let word := t4.takeWhile isWordChar
        if word.map Char.toLower = "true".toList then some (String.mk ident, true)
        else if word.map Char.toLower = "false".toList then some (String.mk ident, false)
        else Option.none
    | _ => Option.none

/-- Series.astype("boolean") on one object cell: bools pass through, missing
values become pandas NA; anything else raises TypeError. -/
def astypeBooleanCell : Cell → Except String (Option Bool)
  | some (.vbool b) => .ok (some b)
  | Option.none => .ok Option.none
  | some .vnull => .ok Option.none
  | _ => .error "TypeError: need bool-like values for astype boolean"

/-- Three-valued conjunction of nullable boolean masks (pandas BooleanArray). -/
def kleeneAnd : Option Bool → Option Bool → Option Bool
  | some false, _ => some false
  | _, some false => some false
  | some true, some true => some true
  | _, _ => Option.none

/-- The fallback evaluator of run_query: split the original where clause on
standalone and, keep the tokens that match col == "value" (plain equality
mask) or col == True/False (astype("boolean") comparison, which can raise),
AND the masks together and index the frame.  Indexing with a mask that
still contains NA raises, as pandas does. -/
def fallbackFilter (df : DataFrame) (w : List Char) : Except String DataFrame := do
  let conds ← (splitOnAnd w).foldlM
    (fun (acc : List (List (Option Bool))) token => do
      let t := stripWs token
      match matchStrEq t with
      | some (col, s) =>
          if df.columns.contains col then
            pure (acc ++ [df.rows.map (fun r => some (pyEq (getCell r col) (.lstr s)))])
          else
            match matchBoolEq t with
            | some (col2, b) =>
                if df.columns.contains col2 then do
                  let bs ← df.rows.mapM (fun r => astypeBooleanCell (getCell r col2))
                  pure (acc ++ [bs.map (Option.map (fun x => x == b))])
                else pure acc
            | Option.none => pure acc
      | Option.none =>
          match matchBoolEq t with
          | some (col2, b) =>
              if df.columns.contains col2 then do
                let bs ← df.rows.mapM (fun r => astypeBooleanCell (getCell r col2))
                pure (acc ++ [bs.map (Option.map (fun x => x == b))])
              else pure acc
          | Option.none => pure acc)
    []
  match conds with
  | [] => pure df
  | m :: ms =>
      let mask := ms.foldl (fun a b => List.zipWith kleeneAnd a b) m
      if mask.all (fun x => x.isSome) then
        pure { df with
          rows := ((df.rows.zip mask).filterMap
            (fun p => if p.2 = some true then some p.1 else Option.none)) }
      else .error "ValueError: cannot mask with an array containing NA"

/-- The WHERE step of run_query: rewrite booleans, try the general
evaluator, fall back to the restricted one on failure. -/
def applyWhere (df : DataFrame) (wc : Option (List Char)) : Except String DataFrame :=
  match wc with
  | Option.none => .ok df
  | some w =>
      match dfQueryFilter df (boolSub w) with
      | .ok d => .ok d
      | .error _ => fallbackFilter df w

/-! ## DSL parsing and execution (src/analyzer.py lines 178-343) -/

/-- The clause variables accumulated by run_query's basic parse loop. -/
structure ParseState where
  whereClause : Option (List Char) := Option.none
  group_by : Option (List String) := Option.none
  select_all : Bool := false
  want_count : Bool := false
  limit_n : Option Nat := Option.none
  offset_n : Nat := 0
deriving DecidableEq, Repr

/-- part[n:].split(",") with each piece stripped: the group-by column list. -/
def splitCols (cs : List Char) : List String :=
  (splitChar ',' cs).map (fun c => String.mk (stripWs c))

/-- One iteration of the clause loop in run_query over a stripped part.
A malformed limit/offset token raises ValueError with the token. -/
def parseStep (st : ParseState) (part : List Char) : Except String ParseState :=
  let low := part.map Char.toLower
  if "where ".toList.isPrefixOf low then
    .ok { st with whereClause := some (stripWs (part.drop 6)) }
  else if "count by ".toList.isPrefixOf low then
    .ok { st with want_count := true, group_by := some (splitCols (part.drop 9)) }
  else if "group by ".toList.isPrefixOf low then
    .ok { st with group_by := some (splitCols (part.drop 9)) }
  else if "select *".toList.isPrefixOf low then
    .ok { st with select_all := true }
  else if "limit ".toList.isPrefixOf low then
    let token := stripWs (part.drop 6)
    if token.map Char.toLower = "all".toList ∨ token.map Char.toLower = "*".toList then
      .ok { st with limit_n := Option.none }
    else
      match pyIntChars token with
      | some m => .ok { st with limit_n := some (max 0 m).toNat }
      | Option.none => .error ("Invalid LIMIT value: " ++ String.mk token)
  else if "offset ".toList.isPrefixOf low then
    let token := stripWs (part.drop 7)
    match pyIntChars token with
    | some m => .ok { st with offset_n := (max 0 m).toNat }
    | Option.none => .error ("Invalid OFFSET value: " ++ String.mk token)
  else .ok st

/-- The basic parse of run_query: split on the pipe, strip each part, fold
the clause loop. -/
def parseDsl (dsl : String) : Except String ParseState :=
  ((splitChar '|' dsl.toList).map stripWs).foldlM parseStep {}

/-- The result metadata dict; absent keys are Option.none.  The meta limit
entry itself holds an optional value (None encodes an uncapped result). -/
structure QueryMeta where
  note : Option String := Option.none
  countFlag : Option Bool := Option.none
  group_by : Option (List String) := Option.none
  total_rows : Option Nat := Option.none
  limit : Option (Option Nat) := Option.none
  offset : Option Nat := Option.none
  rowsMeta : Option Nat := Option.none
  select : Option String := Option.none
deriving DecidableEq, Repr

/-- The payload returned by run_query. -/
structure QueryResult where
  rows : List Row
  meta : QueryMeta
deriving DecidableEq, Repr

/-- The _window helper: frame.iloc[start:] or frame.iloc[start:start+limit]. -/
def windowRows (rows : List Row) (limit_n : Option Nat) (offset_n : Nat) : List Row :=
  match limit_n with
  | Option.none => rows.drop offset_n
  | some n => (rows.drop offset_n).take n

/-- The grouping key of a row: its cells under the group-by columns. -/
def keyOf (cols : List String) (r : Row) : List Cell :=
  cols.map (getCell r)

/-- First-occurrence deduplication; models the group order of
groupby(..., sort=False), which lists groups in order of first appearance. -/
def firstDedup {α : Type} [DecidableEq α] (l : List α) : List α :=
  l.foldl (fun acc x => if x ∈ acc then acc else acc ++ [x]) []

/-- The distinct group keys of a frame, in order of first appearance
(dropna=False keeps all-NaN and partial-NaN keys). -/
def groupKeysOf (df : DataFrame) (cols : List String) : List (List Cell)  :=
  firstDedup (df.rows.map (keyOf cols))

/-- Size of one group: the number of rows carrying the key. -/
def sizeOfKey (df : DataFrame) (cols : List String) (k : List Cell) : Nat :=
  (df.rows.map (keyOf cols)).countP (fun x => x = k)

/-- agg(count=("event_id", "count")) for one group: rows of the group whose
event_id cell is non-null. -/
def aggCountOfKey (df : DataFrame) (cols : List String) (k : List Cell) : Nat :=
  (df.rows.filter (fun r => keyOf cols r = k ∧ (getCell r "event_id").isSome)).length

/-- One output row of a grouped result: the key cells under the group
columns followed by the count column (reset_index(name="count")). -/
def mkGroupRow (cols : List String) (k : List Cell) (n : Nat) : Row :=
  cols.zip k ++ [("count", some (PyVal.vint (Int.ofNat n)))]

/-- df.groupby(cols, dropna=False, sort=False).size().reset_index(name="count"). -/
def countByTable (df : DataFrame) (cols : List String) : List Row :=
  (groupKeysOf df cols).map (fun k => mkGroupRow cols k (sizeOfKey df cols k))

/-- df.groupby(cols, dropna=False, sort=False).agg(count=("event_id","count")).reset_index(). -/
def groupByTable (df : DataFrame) (cols : List String) : List Row :=
  (groupKeysOf df cols).map (fun k => mkGroupRow cols k (aggCountOfKey df cols k))

/-- Execution of a parsed query against a frame: filter, then aggregate or
project, then window; a group-by column absent from the frame (or, for the
agg branch, a missing event_id column) is the modelled pandas KeyError. -/
def execQuery (df : DataFrame) (st : ParseState) : Except String QueryResult :=
  match applyWhere df st.whereClause with
  | .error e => .error e
  | .ok dff =>
  match st.group_by with
  | some cols =>
      if st.want_count then
        if cols.all (fun c => dff.columns.contains c) then
          let grp := countByTable dff cols
          let out := if st.limit_n = Option.none ∧ st.offset_n = 0 then grp
                     else windowRows grp st.limit_n st.offset_n
          .ok { rows := out,
                meta := { countFlag := some true, group_by := some cols,
                          total_rows := some grp.length, limit := some st.limit_n,
                          offset := some st.offset_n } }
        else .error "KeyError: group column not found"
      else
        if cols.all (fun c => dff.columns.contains c) then
          if dff.columns.contains "event_id" then
            let grp := groupByTable dff cols
            let out := if st.limit_n = Option.none ∧ st.offset_n = 0 then grp
                       else windowRows grp st.limit_n st.offset_n
            .ok { rows := out,
                  meta := { group_by := some cols, total_rows := some grp.length,
                            limit := some st.limit_n, offset := some st.offset_n } }
          else .error "KeyError: event_id"
        else .error "KeyError: group column not found"
  | Option.none =>
      let total := dff.rows.length
      if st.select_all then
        let out := if st.limit_n = Option.none ∧ st.offset_n = 0 then dff.rows
                   else windowRows dff.rows st.limit_n st.offset_n
        .ok { rows := out,
              meta := { select := some "*", rowsMeta := some out.length,
                        total_rows := some total, limit := some st.limit_n,
                        offset := some st.offset_n } }
      else if st.limit_n = Option.none ∧ st.offset_n = 0 then
        let out := dff.rows.take 100
        .ok { rows := out,
              meta := { rowsMeta := some out.length, total_rows := some total,
                        limit := some (some 100), offset := some 0,
                        note := some "default limit applied" } }
      else
        let out := windowRows dff.rows st.limit_n st.offset_n
        .ok { rows := out,
              meta := { rowsMeta := some out.length, total_rows := some total,
                        limit := some st.limit_n, offset := some st.offset_n } }

/-- analyzer.run_query: the empty frame short-circuits to the no-data note
before any clause parsing; otherwise parse the DSL and execute it. -/
def run_query (df : DataFrame) (dsl : String) : Except String QueryResult :=
  if df.rows.isEmpty then .ok { rows := [], meta := { note := some "no data" } }
  else
    match parseDsl dsl with
    | .error e => .error e
    | .ok st => execQuery df st

/-! ## QueryCache (src/cache.py)

The cache dict is an insertion-ordered association list with unique keys;
entry timestamps are naturals from a monotone clock.  The sha256 key
derivation of _compute_key is replaced by the underlying (query, context)
text itself — the claims under verification only concern entry bookkeeping,
which is independent of the digest. -/

/-- One cached entry: the stored result and its insertion timestamp. -/
structure CacheEntry where
  result : String
  timestamp : Nat
deriving DecidableEq, Repr

/-- QueryCache state: the entry dict plus the configured bounds. -/
structure QueryCache where
  cache : List (String × CacheEntry)
  max_size : Nat
  ttl : Nat
deriving DecidableEq, Repr

/-- Python dict assignment: an existing key keeps its slot and gets the new
value; a new key is appended. -/
def dictInsert (l : List (String × CacheEntry)) (k : String) (e : CacheEntry) :
    List (String × CacheEntry) :=
  if l.any (fun kv => kv.1 = k) then
    l.map (fun kv => if kv.1 = k then (k, e) else kv)
  else l ++ [(k, e)]

/-- min(self._cache.keys(), key=lambda k: timestamp): the first key of
minimal timestamp in iteration order (Python min keeps the earliest of
tied candidates). -/
def oldestKey (l : List (String × CacheEntry)) : Option String :=
  match l with
  | [] => Option.none
  | x :: xs =>
      some ((xs.foldl (fun acc y => if y.2.timestamp < acc.2.timestamp then y else acc) x).1)

/-- QueryCache.get at clock time now: a fresh hit returns the entry and
leaves the dict unchanged; a stale hit deletes the entry. -/
def QueryCache.get (c : QueryCache) (key : String) (now : Nat) :
    Option String × QueryCache :=
  match c.cache.find? (fun kv => kv.1 = key) with
  | some kv =>
      if now - kv.2.timestamp ≤ c.ttl then (some kv.2.result, c)
      else (Option.none, { c with cache := c.cache.eraseP (fun e => e.1 = key) })
  | Option.none => (Option.none, c)

/-- QueryCache.set at clock time now: when the dict has reached max_size,
delete the entry whose timestamp is globally oldest, then insert.  The
Option.none outcome models the ValueError that min() raises on an empty
dict (reachable only with max_size = 0). -/
def QueryCache.set (c : QueryCache) (key : String) (result : String) (now : Nat) :
    Option QueryCache :=
  let step1 : Option (List (String × CacheEntry)) :=
    if c.cache.length ≥ c.max_size then
      match oldestKey c.cache with
      | some k => some (c.cache.eraseP (fun e => e.1 = k))
      | Option.none => Option.none
    else some c.cache
  step1.map (fun l => { c with cache := dictInsert l key ⟨result, now⟩ })

/-! ## Concrete datasets used by the theorems below.

rawDyn is event_001 of the repository's own test_dynamic_fields.py;
raw4 is that file's full four-event dataset, the scenario of the spec's
Schedule/isfire acceptance test. -/

/-- event_001 of test_dynamic_fields.py. -/
def evDyn : RawEvent :=
  [("date", .vstr "2024-01-15"),
   ("status", .vstr "success"),
   ("object_id", .vstr "12345"),
   ("object_title", .vstr "Test Event 1"),
   ("output__305546688__event_name", .vstr "Schedule"),
   ("output__305546688__isfire", .vstr "yes"),
   ("output__263780428__text", .vstr "No ad_id or adset_id found"),
   ("output__123456__primary_email", .vstr "test@example.com"),
   ("custom_field_1", .vstr "value1"),
   ("custom_field_2", .vstr "value2")]

/-- event_002 of test_dynamic_fields.py. -/
def evDyn2 : RawEvent :=
  [("date", .vstr "2024-01-16"),
   ("status", .vstr "success"),
   ("object_id", .vstr "12346"),
   ("object_title", .vstr "Test Event 2"),
   ("output__305546688__event_name", .vstr "Schedule"),
   ("output__305546688__isfire", .vstr "no"),
   ("output__263780428__text", .vstr "Success"),
   ("output__123456__primary_email", .vstr "test2@example.com")]

/-- event_003 of test_dynamic_fields.py. -/
def evDyn3 : RawEvent :=
  [("date", .vstr "2024-01-17"),
   ("status", .vstr "failed"),
   ("object_id", .vstr "12347"),
   ("object_title", .vstr "Test Event 3"),
   ("output__305546688__event_name", .vstr "CompleteRegistration"),
   ("output__305546688__isfire", .vstr "yes"),
   ("output__263780428__text", .vstr "No ad_id or adset_id found")]

/-- event_004 of test_dynamic_fields.py. -/
def evDyn4 : RawEvent :=
  [("date", .vstr "2024-01-18"),
   ("status", .vstr "success"),
   ("object_id", .vstr "12348"),
   ("object_title", .vstr "Test Event 4"),
   ("output__305546688__event_name", .vstr "Schedule"),
   ("output__305546688__isfire", .vstr "yes"),
   ("output__263780428__text", .vstr "All good")]

/-- The four-event dataset of test_dynamic_fields.py: event_001 and
event_004 are the two Schedule events with isfire yes. -/
def raw4 : List (String × RawEvent) :=
  [("event_001", evDyn), ("event_002", evDyn2), ("event_003", evDyn3), ("event_004", evDyn4)]

/-- The normalized frame of the four-event dataset. -/
def df4 : DataFrame := (normalize_events raw4).1

/-- The spec's acceptance query for the four-event dataset. -/
def dslSchedule : String := "where event_name == \"Schedule\" and isfire == true"

/-- An event carrying the primary_email suffix in both directions; the
input-direction key comes later in insertion order. -/
def evBothDirs : RawEvent :=
  [("output__22__primary_email", .vstr "out@example.com"),
   ("input__11__primary_email", .vstr "in@example.com")]

/-- An event where both directions carry the isfire suffix and the
input-direction key comes first in insertion order. -/
def evBothFire : RawEvent :=
  [("input__11__isfire", .vstr "no"),
   ("output__22__isfire", .vstr "yes")]

/-- Two preferred-root output keys for the event_name suffix: the longer
key precedes the shorter one in insertion order. -/
def evPreferLen : RawEvent :=
  [("output__77__deep__event_name", .vstr "long"),
   ("output__77__event_name", .vstr "short")]

/-- A single output isfire key whose value carries surrounding whitespace. -/
def evPadded : RawEvent :=
  [("output__1__isfire", .vstr " yes ")]

/-- A single input isfire key whose value carries surrounding whitespace. -/
def evPaddedIn : RawEvent :=
  [("input__1__isfire", .vstr " yes ")]

/-- The empty dataset's frame. -/
def dfEmpty : DataFrame := (normalize_events []).1

/-- A one-event dataset (used to exercise the non-empty code paths). -/
def raw1 : List (String × RawEvent) :=
  [("e1", [("status", .vstr "success"), ("object_id", .vstr "9")])]

/-- Its normalized frame. -/
def df1 : DataFrame := (normalize_events raw1).1

/-- Two events, the second without a status key, so its normalized status
cell is null: the grouping witness dataset. -/
def rawGrp : List (String × RawEvent) :=
  [("e1", [("status", .vstr "success")]),
   ("e2", [("object_id", .vstr "5")])]

/-- Its normalized frame. -/
def dfGrp : DataFrame := (normalize_events rawGrp).1

/-- A cache at capacity 2 whose second entry carries the oldest timestamp. -/
def cacheFull : QueryCache :=
  { cache := [("qa", ⟨"ra", 50⟩), ("qb", ⟨"rb", 20⟩)], max_size := 2, ttl := 300 }

/-- The count column of a grouped output row: reset_index(name="count")
places it last.  Non-count rows read as 0. -/
def groupCount (g : Row) : Nat :=
  match g.getLast? with
  | some (_, some (.vint n)) => n.toNat
  | _ => 0

end ZapHacker

deriving instance DecidableEq for Except

namespace ZapHacker

/-! ## Helper lemmas -/

theorem isPrefixOf_cons_ne {a b : Char} (p q : List Char) (h : (a == b) = false) :
    (a :: p).isPrefixOf (b :: q) = false := by
  simp [List.isPrefixOf, h]

theorem isPrefixOf_self_append (p r : List Char) : p.isPrefixOf (p ++ r) = true := by
  exact List.isPrefixOf_iff_prefix.mpr (List.prefix_append p r)

theorem splitChar_no_sep (sep : Char) (cs : List Char) (h : sep ∉ cs) :
    splitChar sep cs = [cs] := by
  induction cs with
  | nil => rfl
  | cons c rest ih =>
      have hc : c ≠ sep := fun hcs => h (hcs ▸ List.mem_cons_self c rest)
      have hr : sep ∉ rest := fun hm => h (List.mem_cons_of_mem c hm)
      simp only [splitChar, List.foldr_cons] at *
      rw [ih hr]
      simp [hc]

theorem dropWhile_cons_of_neg {p : Char → Bool} {c : Char} (l : List Char)
    (h : p c = false) : (c :: l).dropWhile p = c :: l := by
  simp [List.dropWhile, h]

theorem stripWs_eq_self {tok : List Char}
    (h1 : tok.dropWhile isPySpace = tok)
    (h2 : tok.reverse.dropWhile isPySpace = tok.reverse) :
    stripWs tok = tok := by
  simp [stripWs, h1, h2]

theorem length_dropWhile_le' (p : Char → Bool) (l : List Char) :
    (l.dropWhile p).length ≤ l.length := by
  induction l with
  | nil => simp
  | cons a t ih =>
      by_cases ha : p a
      · simp only [List.dropWhile, ha]
        exact Nat.le_trans ih (Nat.le_succ _)
      · simp [List.dropWhile, ha]

theorem head_not_space_of_dropWhile_self {tok : List Char} {c : Char} {rest : List Char}
    (h : tok.dropWhile isPySpace = tok) (he : tok = c :: rest) : isPySpace c = false := by
  subst he
  by_cases hc : isPySpace c
  · exfalso
    have hdrop : (c :: rest).dropWhile isPySpace = rest.dropWhile isPySpace := by
      simp [List.dropWhile, hc]
    have hlen := congrArg List.length (hdrop.symm.trans h)
    have hle := length_dropWhile_le' isPySpace rest
    simp at hlen
    omega
  · exact eq_false_of_ne_true (fun hh => hc (by simp [hh]))

/-- Stripping is the identity on a keyword followed by an already stripped,
non-empty token. -/
theorem stripWs_keyword (c : Char) (p tok : List Char)
    (hc : isPySpace c = false) (hne : tok ≠ [])
    (h2 : tok.reverse.dropWhile isPySpace = tok.reverse) :
    stripWs (c :: p ++ tok) = c :: p ++ tok := by
  obtain ⟨d, rest, hd⟩ : ∃ d rest, tok.reverse = d :: rest := by
    cases hr : tok.reverse with
    | nil => exact absurd (by simpa using congrArg List.reverse hr) hne
    | cons d rest => exact ⟨d, rest, rfl⟩
  have hdns : isPySpace d = false := head_not_space_of_dropWhile_self h2 hd
  have hfront : (c :: p ++ tok).dropWhile isPySpace = c :: p ++ tok :=
    dropWhile_cons_of_neg _ hc
  have hback : (c :: p ++ tok).reverse.dropWhile isPySpace = (c :: p ++ tok).reverse := by
    have hrev : (c :: p ++ tok).reverse = d :: (rest ++ (c :: p).reverse) := by
      rw [List.reverse_append, hd]; simp
    rw [hrev]
    rw [dropWhile_cons_of_neg _ hdns]
  show ((((c :: p ++ tok).dropWhile isPySpace).reverse).dropWhile isPySpace).reverse = _
  rw [hfront, hback, List.reverse_reverse]

/-- A first-strict-minimum fold picks an element of the candidates that
is minimal under the measure. -/
theorem foldlMin_spec {α : Type} (f : α → Nat) (xs : List α) (a : α) :
    (xs.foldl (fun acc y => if f y < f acc then y else acc) a = a ∨
      xs.foldl (fun acc y => if f y < f acc then y else acc) a ∈ xs) ∧
    f (xs.foldl (fun acc y => if f y < f acc then y else acc) a) ≤ f a ∧
    ∀ y ∈ xs, f (xs.foldl (fun acc y => if f y < f acc then y else acc) a) ≤ f y := by
  induction xs generalizing a with
  | nil => simp
  | cons x t ih =>
      simp only [List.foldl_cons]
      by_cases hx : f x < f a
      · simp only [if_pos hx]
        obtain ⟨hm, hle, hall⟩ := ih x
        refine ⟨?_, ?_, ?_⟩
        · rcases hm with hm | hm
          · exact Or.inr (by rw [hm]; exact List.mem_cons_self x t)
          · exact Or.inr (List.mem_cons_of_mem x hm)
        · exact Nat.le_trans hle (Nat.le_of_lt hx)
        · intro y hy
          rcases List.mem_cons.mp hy with hy | hy
          · exact hy ▸ hle
          · exact hall y hy
      · simp only [if_neg hx]
        obtain ⟨hm, hle, hall⟩ := ih a
        refine ⟨?_, ?_, ?_⟩
        · rcases hm with hm | hm
          · exact Or.inl hm
          · exact Or.inr (List.mem_cons_of_mem x hm)
        · exact hle
        · intro y hy
          rcases List.mem_cons.mp hy with hy | hy
          · subst hy; exact Nat.le_trans hle (Nat.le_of_not_lt hx)
          · exact hall y hy

/-- The Option-valued fold of firstMinLen over a cons is the plain fold. -/
theorem firstMinLen_cons (x : Hit) (t : List Hit) :
    firstMinLen (x :: t) =
      some (t.foldl (fun acc y => if y.len < acc.len then y else acc) x) := by
  show (t.foldl _ (some x)) = _
  induction t generalizing x with
  | nil => rfl
  | cons y t ih =>
      simp only [List.foldl_cons]
      by_cases hy : y.len < x.len
      · rw [show ((if y.len < x.len then some y else some x) = some y) from if_pos hy,
            show ((if y.len < x.len then y else x) = y) from if_pos hy]
        exact ih y
      · rw [show ((if y.len < x.len then some y else some x) = some x) from if_neg hy,
            show ((if y.len < x.len then y else x) = x) from if_neg hy]
        exact ih x

/-- firstMinLen returns a member of the list. -/
theorem firstMinLen_mem {l : List Hit} {h : Hit} (he : firstMinLen l = some h) : h ∈ l := by
  cases l with
  | nil => exact absurd he (by simp [firstMinLen])
  | cons x t =>
      rw [firstMinLen_cons] at he
      obtain ⟨hm, _, _⟩ := foldlMin_spec Hit.len t x
      cases Option.some.inj he
      rcases hm with hm | hm
      · rw [hm]; exact List.mem_cons_self x t
      · exact List.mem_cons_of_mem x hm

/-- firstMinLen returns a hit of minimal length. -/
theorem firstMinLen_min {l : List Hit} {h : Hit} (he : firstMinLen l = some h) :
    ∀ h' ∈ l, h.len ≤ h'.len := by
  cases l with
  | nil => exact absurd he (by simp [firstMinLen])
  | cons x t =>
      rw [firstMinLen_cons] at he
      obtain ⟨_, hle, hall⟩ := foldlMin_spec Hit.len t x
      cases Option.some.inj he
      intro h' hh'
      rcases List.mem_cons.mp hh' with hh' | hh'
      · exact hh' ▸ hle
      · exact hall h' hh'

/-- firstMinLen of a non-empty list succeeds. -/
theorem firstMinLen_isSome {l : List Hit} (hne : l ≠ []) : (firstMinLen l).isSome := by
  cases l with
  | nil => exact absurd rfl hne
  | cons x t => rw [firstMinLen_cons]; rfl

/-- Every hit collected by a scan comes from a matching scalar entry of
the event, with the stripped stringified value. -/
theorem mem_scanHits {ev : RawEvent} {pfx : String} {sufs : List String}
    {pr : Option String} {prefer : Bool} {h : Hit}
    (hm : h ∈ scanHits ev pfx sufs pr prefer) :
    ∃ kv, kv ∈ ev ∧ strStartsWith kv.1 pfx = true ∧ suffixAny sufs kv.1 = true ∧
      is_scalar kv.2 = true ∧ h.len = kv.1.toList.length ∧
      h.val = String.mk (stripWs (pyStr kv.2).toList) := by
  obtain ⟨kv, hkv, hf⟩ := List.mem_filterMap.mp hm
  by_cases hc : strStartsWith kv.1 pfx ∧ suffixAny sufs kv.1 ∧ is_scalar kv.2 ∧
      ¬(prefer = true ∧ rootTruthy pr = true ∧ keyRoot kv.1 ≠ pr)
  · rw [if_pos hc] at hf
    cases Option.some.inj hf
    exact ⟨kv, hkv, hc.1, hc.2.1, hc.2.2.1, rfl, rfl⟩
  · rw [if_neg hc] at hf
    exact absurd hf (by simp)

/-- Conversely, in a non-preferring scan every matching scalar entry
contributes its hit. -/
theorem scanHits_mem {ev : RawEvent} {pfx : String} {sufs : List String}
    {pr : Option String} {kv : String × PyVal}
    (hkv : kv ∈ ev) (h1 : strStartsWith kv.1 pfx = true)
    (h2 : suffixAny sufs kv.1 = true) (h3 : is_scalar kv.2 = true) :
    (⟨kv.1.toList.length, kv.1, String.mk (stripWs (pyStr kv.2).toList), keyRoot kv.1⟩ : Hit) ∈
      scanHits ev pfx sufs pr false := by
  refine List.mem_filterMap.mpr ⟨kv, hkv, ?_⟩
  rw [if_pos]
  exact ⟨h1, h2, h3, by simp⟩

/-- Every hit of the output scan of _first_output_scalar comes from a
matching output entry, with the raw (unstripped) stringified value. -/
theorem mem_outputHits {ev : RawEvent} {suffix : String} {h : Hit}
    (hm : h ∈ outputHits ev suffix) :
    ∃ kv, kv ∈ ev ∧ strStartsWith kv.1 "output__" = true ∧
      strEndsWith kv.1 ("__" ++ suffix) = true ∧ is_scalar kv.2 = true ∧
      h.len = kv.1.toList.length ∧ h.val = pyStr kv.2 := by
  obtain ⟨kv, hkv, hf⟩ := List.mem_filterMap.mp hm
  by_cases hc : strStartsWith kv.1 "output__" ∧ strEndsWith kv.1 ("__" ++ suffix) ∧
      is_scalar kv.2
  · rw [if_pos hc] at hf
    cases Option.some.inj hf
    exact ⟨kv, hkv, hc.1, hc.2.1, hc.2.2, rfl, rfl⟩
  · rw [if_neg hc] at hf
    exact absurd hf (by simp)

/-- Every matching output entry contributes a hit to the output scan. -/
theorem outputHits_mem {ev : RawEvent} {suffix : String} {kv : String × PyVal}
    (hkv : kv ∈ ev) (h1 : strStartsWith kv.1 "output__" = true)
    (h2 : strEndsWith kv.1 ("__" ++ suffix) = true) (h3 : is_scalar kv.2 = true) :
    (⟨kv.1.toList.length, kv.1, pyStr kv.2, keyRoot kv.1⟩ : Hit) ∈ outputHits ev suffix := by
  refine List.mem_filterMap.mpr ⟨kv, hkv, ?_⟩
  rw [if_pos]
  exact ⟨h1, h2, h3⟩

/-- firstDedup keeps exactly the members of the input. -/
theorem mem_firstDedup {α : Type} [DecidableEq α] (l : List α) (a : α) :
    a ∈ firstDedup l ↔ a ∈ l := by
  have key : ∀ (l acc : List α),
      (a ∈ l.foldl (fun acc x => if x ∈ acc then acc else acc ++ [x]) acc ↔
        a ∈ acc ∨ a ∈ l) := by
    intro l
    induction l with
    | nil => intro acc; simp
    | cons x t ih =>
        intro acc
        simp only [List.foldl_cons]
        by_cases hx : x ∈ acc
        · rw [if_pos hx, ih]
          constructor
          · rintro (h | h)
            · exact Or.inl h
            · exact Or.inr (List.mem_cons_of_mem x h)
          · rintro (h | h)
            · exact Or.inl h
            · rcases List.mem_cons.mp h with h | h
              · exact Or.inl (h ▸ hx)
              · exact Or.inr h
        · rw [if_neg hx, ih]
          constructor
          · rintro (h | h)
            · rcases List.mem_append.mp h with h | h
              · exact Or.inl h
              · exact Or.inr (List.mem_cons.mpr (Or.inl (by simpa using h)))
            · exact Or.inr (List.mem_cons_of_mem x h)
          · rintro (h | h)
            · exact Or.inl (List.mem_append.mpr (Or.inl h))
            · rcases List.mem_cons.mp h with h | h
              · exact Or.inl (List.mem_append.mpr (Or.inr (by simp [h])))
              · exact Or.inr h
  simpa using key l []

/-- firstDedup yields a duplicate-free list. -/
theorem firstDedup_nodup {α : Type} [DecidableEq α] (l : List α) :
    (firstDedup l).Nodup := by
  have key : ∀ (l acc : List α), acc.Nodup →
      (l.foldl (fun acc x => if x ∈ acc then acc else acc ++ [x]) acc).Nodup := by
    intro l
    induction l with
    | nil => intro acc h; simpa using h
    | cons x t ih =>
        intro acc hacc
        simp only [List.foldl_cons]
        by_cases hx : x ∈ acc
        · rw [if_pos hx]; exact ih acc hacc
        · rw [if_neg hx]
          refine ih (acc ++ [x]) ?_
          simpa [List.nodup_append, hacc] using hx
  exact key l [] List.nodup_nil

/-- Summing the indicator of one element over a list counts its occurrences. -/
theorem sum_map_indicator {α : Type} [DecidableEq α] (d : List α) (x : α) :
    (d.map (fun k => if x = k then (1 : Nat) else 0)).sum =
      d.countP (fun y => y = x) := by
  induction d with
  | nil => simp
  | cons a t ih =>
      rw [List.map_cons, List.sum_cons, List.countP_cons, ih]
      by_cases hax : a = x
      · subst hax; simp [Nat.add_comm]
      · have hxa : ¬ x = a := fun h => hax h.symm
        simp [hax, hxa]

/-- In a duplicate-free list, a member occurs exactly once. -/
theorem countP_eq_one_of_mem_nodup {α : Type} [DecidableEq α] {d : List α} {x : α}
    (hnd : d.Nodup) (hx : x ∈ d) : d.countP (fun y => y = x) = 1 := by
  induction d with
  | nil => cases hx
  | cons a t ih =>
      rw [List.countP_cons]
      have hnotin := (List.nodup_cons.mp hnd).1
      rcases List.mem_cons.mp hx with h | h
      · subst h
        have hzero : t.countP (fun y => y = x) = 0 := by
          rw [List.countP_eq_zero]
          intro b hb
          simp only [decide_eq_true_eq]
          intro hbx
          exact hnotin (hbx ▸ hb)
        simp [hzero]
      · have hax : ¬ a = x := fun he => hnotin (he ▸ h)
        rw [ih (List.nodup_cons.mp hnd).2 h]
        simp [hax]

/-- Sums of pointwise sums split. -/
theorem sum_map_add {α : Type} (f g : α → Nat) (d : List α) :
    (d.map (fun k => f k + g k)).sum = (d.map f).sum + (d.map g).sum := by
  induction d with
  | nil => simp
  | cons b u ih => simp only [List.map_cons, List.sum_cons, ih]; omega

/-- Summing per-key occurrence counts over a duplicate-free cover of the
list recovers its length. -/
theorem sum_counts_over_cover {α : Type} [DecidableEq α] (l d : List α)
    (hnd : d.Nodup) (hsub : ∀ a ∈ l, a ∈ d) :
    (d.map (fun k => l.countP (fun y => y = k))).sum = l.length := by
  induction l with
  | nil => simp
  | cons x t ih =>
      have hx : x ∈ d := hsub x (List.mem_cons_self x t)
      have hts : ∀ a ∈ t, a ∈ d := fun a ha => hsub a (List.mem_cons_of_mem x ha)
      have step : ∀ k, (x :: t).countP (fun y => y = k) =
          t.countP (fun y => y = k) + (if x = k then 1 else 0) := by
        intro k
        rw [List.countP_cons]
        by_cases hkx : x = k
        · simp [hkx]
        · simp [hkx]
      calc (d.map (fun k => (x :: t).countP (fun y => y = k))).sum
      _ = (d.map (fun k => t.countP (fun y => y = k) + (if x = k then 1 else 0))).sum := by
            congr 1; exact List.map_congr_left (fun k _ => step k)
      _ = (d.map (fun k => t.countP (fun y => y = k))).sum +
            (d.map (fun k => if x = k then (1 : Nat) else 0)).sum :=
            sum_map_add _ _ d
      _ = t.length + 1 := by
            rw [ih hts, sum_map_indicator, countP_eq_one_of_mem_nodup hnd hx]
      _ = (x :: t).length := by simp [Nat.add_comm]

/-- Rows surviving the WHERE step are rows of the input frame. -/
theorem applyWhere_rows_sub {df dff : DataFrame} {wc : Option (List Char)}
    (h : applyWhere df wc = .ok dff) : ∀ r ∈ dff.rows, r ∈ df.rows := by
  cases wc with
  | none =>
      have : df = dff := by simpa [applyWhere] using h
      subst this; exact fun r hr => hr
  | some w =>
      simp only [applyWhere] at h
      cases hq : dfQueryFilter df (boolSub w) with
      | ok d =>
          rw [hq] at h
          cases h
          unfold dfQueryFilter at hq
          cases hpc : parseConjFuel ((boolSub w).length + 1) (boolSub w) with
          | none => rw [hpc] at hq; exact absurd hq (by simp)
          | some atoms =>
              rw [hpc] at hq
              simp only [] at hq
              by_cases hca : atoms.all (fun a => df.columns.contains a.1)
              · rw [if_pos hca] at hq
                cases Except.ok.inj hq
                intro r hr
                exact List.mem_of_mem_filter hr
              · rw [if_neg hca] at hq
                exact absurd hq (by simp)
      | error e =>
          rw [hq] at h
          unfold fallbackFilter at h
          cases hf : (splitOnAnd w).foldlM
              (fun (acc : List (List (Option Bool))) token => do
                let t := stripWs token
                match matchStrEq t with
                | some (col, s) =>
                    if df.columns.contains col then
                      pure (acc ++ [df.rows.map (fun r => some (pyEq (getCell r col) (.lstr s)))])
                    else
                      match matchBoolEq t with
                      | some (col2, b) =>
                          if df.columns.contains col2 then do
                            let bs ← df.rows.mapM (fun r => astypeBooleanCell (getCell r col2))
                            pure (acc ++ [bs.map (Option.map (fun x => x == b))])
                          else pure acc
                      | Option.none => pure acc
                | Option.none =>
                    match matchBoolEq t with
                    | some (col2, b) =>
                        if df.columns.contains col2 then do
                          let bs ← df.rows.mapM (fun r => astypeBooleanCell (getCell r col2))
                          pure (acc ++ [bs.map (Option.map (fun x => x == b))])
                        else pure acc
                    | Option.none => pure acc)
              [] with
          | error e2 =>
              rw [hf] at h
              exact absurd h (by simp [Bind.bind, Except.bind])
          | ok conds =>
              rw [hf] at h
              simp only [Bind.bind, Except.bind] at h
              cases conds with
              | nil =>
                  have : df = dff := by simpa [pure, Except.pure] using h
                  subst this; exact fun r hr => hr
              | cons m ms =>
                  simp only [] at h
                  by_cases hall : (ms.foldl (fun a b => List.zipWith kleeneAnd a b) m).all
                      (fun x => x.isSome)
                  · rw [if_pos hall] at h
                    have hd : dff = { df with
                        rows := ((df.rows.zip (ms.foldl (fun a b => List.zipWith kleeneAnd a b) m)).filterMap
                          (fun p => if p.2 = some true then some p.1 else Option.none)) } := by
                      cases h; rfl
                    subst hd
                    intro r hr
                    obtain ⟨p, hp, hpe⟩ := List.mem_filterMap.mp hr
                    by_cases hpt : p.2 = some true
                    · rw [if_pos hpt] at hpe
                      cases Option.some.inj hpe
                      exact (List.of_mem_zip hp).1
                    · rw [if_neg hpt] at hpe
                      exact absurd hpe (by simp)
                  · rw [if_neg hall] at h
                    exact absurd h (by simp)

/-- The globally oldest key names an entry of minimal timestamp. -/
theorem oldestKey_spec {l : List (String × CacheEntry)} {k0 : String}
    (h : oldestKey l = some k0) :
    ∃ e0, (k0, e0) ∈ l ∧ ∀ kv ∈ l, e0.timestamp ≤ kv.2.timestamp := by
  cases l with
  | nil => exact absurd h (by simp [oldestKey])
  | cons x xs =>
      obtain ⟨hm, hle, hall⟩ := foldlMin_spec (fun kv => kv.2.timestamp) xs x
      simp only [oldestKey] at h
      set r := xs.foldl
        (fun acc y => if y.2.timestamp < acc.2.timestamp then y else acc) x with hr
      have hrk : r.1 = k0 := Option.some.inj h
      refine ⟨r.2, ?_, ?_⟩
      · rw [← hrk]
        rcases hm with hm | hm
        · rw [hm]; exact List.mem_cons_self x xs
        · exact List.mem_cons_of_mem x hm
      · intro kv hkv
        rcases List.mem_cons.mp hkv with hkv | hkv
        · exact hkv ▸ hle
        · exact hall kv hkv

/-- A non-empty cache dict has an oldest key. -/
theorem oldestKey_isSome {l : List (String × CacheEntry)} (h : l ≠ []) :
    (oldestKey l).isSome := by
  cases l with
  | nil => exact absurd rfl h
  | cons x xs => rfl

/-- With duplicate-free keys, the survivors of deleting key k0 are the
original entries whose key differs from k0. -/
theorem mem_eraseP_key {l : List (String × CacheEntry)} {k0 : String}
    {kv : String × CacheEntry}
    (hnd : (l.map Prod.fst).Nodup)
    (h : kv ∈ l.eraseP (fun e => e.1 = k0)) : kv ∈ l ∧ kv.1 ≠ k0 := by
  induction l with
  | nil => exact absurd h (by simp)
  | cons a t ih =>
      rw [List.map_cons] at hnd
      have hnotin := (List.nodup_cons.mp hnd).1
      have hnd' := (List.nodup_cons.mp hnd).2
      rw [List.eraseP_cons] at h
      by_cases pa : a.1 = k0
      · rw [show (decide (a.1 = k0)) = true from decide_eq_true pa] at h
        simp only [cond] at h
        refine ⟨List.mem_cons_of_mem a h, ?_⟩
        intro hk
        exact hnotin (List.mem_map.mpr ⟨kv, h, by rw [hk, pa]⟩)
      · rw [show (decide (a.1 = k0)) = false from decide_eq_false pa] at h
        simp only [cond] at h
        rcases List.mem_cons.mp h with h | h
        · exact ⟨h ▸ List.mem_cons_self a t, h ▸ pa⟩
        · obtain ⟨hm, hne⟩ := ih hnd' h
          exact ⟨List.mem_cons_of_mem a hm, hne⟩

/-- Length of a dict insertion: unchanged on an existing key, one more on
a new key. -/
theorem dictInsert_length (l : List (String × CacheEntry)) (k : String) (e : CacheEntry) :
    (dictInsert l k e).length =
      if l.any (fun kv => kv.1 = k) then l.length else l.length + 1 := by
  unfold dictInsert
  by_cases h : l.any (fun kv => kv.1 = k)
  · rw [if_pos h, if_pos h]; simp
  · rw [if_neg h, if_neg h]; simp

/-- Entries after a dict insertion are the new binding or old entries. -/
theorem mem_dictInsert {l : List (String × CacheEntry)} {k : String} {e : CacheEntry}
    {kv : String × CacheEntry} (h : kv ∈ dictInsert l k e) :
    kv = (k, e) ∨ kv ∈ l := by
  unfold dictInsert at h
  by_cases ha : l.any (fun kv => kv.1 = k)
  · rw [if_pos ha] at h
    obtain ⟨orig, horig, heq⟩ := List.mem_map.mp h
    by_cases hok : orig.1 = k
    · rw [if_pos hok] at heq; exact Or.inl heq.symm
    · rw [if_neg hok] at heq; exact Or.inr (heq ▸ horig)
  · rw [if_neg ha] at h
    rcases List.mem_append.mp h with h | h
    · exact Or.inr h
    · exact Or.inl (by simpa using h)

/-- A one-part DSL reduces to a single clause-loop step. -/
theorem parseDsl_single (part : List Char) (hp : ¬ '|' ∈ part) (hs : stripWs part = part) :
    parseDsl (String.mk part) = parseStep {} part := by
  unfold parseDsl
  have htl : (String.mk part).toList = part := rfl
  rw [htl, splitChar_no_sep '|' part hp]
  simp only [List.map_cons, List.map_nil, hs]
  simp [List.foldlM_cons, List.foldlM_nil]

/-- The clause loop on the single part limit token reduces to the limit
branch on the bare token. -/
theorem parseStep_limit_tok (tok : List Char)
    (h1 : tok.dropWhile isPySpace = tok)
    (h2 : tok.reverse.dropWhile isPySpace = tok.reverse) :
    parseStep {} ("limit ".toList ++ tok) =
      (if tok.map Char.toLower = "all".toList ∨ tok.map Char.toLower = "*".toList then
        .ok { limit_n := Option.none }
      else
        match pyIntChars tok with
        | some m => .ok { limit_n := some (max 0 m).toNat }
        | Option.none => .error ("Invalid LIMIT value: " ++ String.mk tok)) := by
  have hlit : "limit ".toList = ['l', 'i', 'm', 'i', 't', ' '] := rfl
  have hlow : ("limit ".toList ++ tok).map Char.toLower =
      'l' :: 'i' :: 'm' :: 'i' :: 't' :: ' ' :: tok.map Char.toLower := by
    rw [List.map_append, hlit]
    rfl
  have hW : ("where ".toList).isPrefixOf (("limit ".toList ++ tok).map Char.toLower) = false := by
    rw [hlow]; exact isPrefixOf_cons_ne _ _ (by decide)
  have hC : ("count by ".toList).isPrefixOf (("limit ".toList ++ tok).map Char.toLower) = false := by
    rw [hlow]; exact isPrefixOf_cons_ne _ _ (by decide)
  have hG : ("group by ".toList).isPrefixOf (("limit ".toList ++ tok).map Char.toLower) = false := by
    rw [hlow]; exact isPrefixOf_cons_ne _ _ (by decide)
  have hS : ("select *".toList).isPrefixOf (("limit ".toList ++ tok).map Char.toLower) = false := by
    rw [hlow]; exact isPrefixOf_cons_ne _ _ (by decide)
  have hL : ("limit ".toList).isPrefixOf (("limit ".toList ++ tok).map Char.toLower) = true := by
    rw [List.map_append, show ("limit ".toList).map Char.toLower = "limit ".toList from rfl]
    exact isPrefixOf_self_append _ _
  have hdrop : ("limit ".toList ++ tok).drop 6 = tok := by
    rw [show (6 : Nat) = ("limit ".toList).length from rfl]
    exact List.drop_left _ _
  have hstok : stripWs tok = tok := stripWs_eq_self h1 h2
  simp only [parseStep, hW, hC, hG, hS, hL, hdrop, hstok]
  simp

/-- The clause loop on the single part offset token reduces to the offset
branch on the bare token. -/
theorem parseStep_offset_tok (tok : List Char)
    (h1 : tok.dropWhile isPySpace = tok)
    (h2 : tok.reverse.dropWhile isPySpace = tok.reverse) :
    parseStep {} ("offset ".toList ++ tok) =
      (match pyIntChars tok with
      | some m => .ok { offset_n := (max 0 m).toNat }
      | Option.none => .error ("Invalid OFFSET value: " ++ String.mk tok)) := by
  have hlit : "offset ".toList = ['o', 'f', 'f', 's', 'e', 't', ' '] := rfl
  have hlow : ("offset ".toList ++ tok).map Char.toLower =
      'o' :: 'f' :: 'f' :: 's' :: 'e' :: 't' :: ' ' :: tok.map Char.toLower := by
    rw [List.map_append, hlit]
    rfl
  have hW : ("where ".toList).isPrefixOf (("offset ".toList ++ tok).map Char.toLower) = false := by
    rw [hlow]; exact isPrefixOf_cons_ne _ _ (by decide)
  have hC : ("count by ".toList).isPrefixOf (("offset ".toList ++ tok).map Char.toLower) = false := by
    rw [hlow]; exact isPrefixOf_cons_ne _ _ (by decide)
  have hG : ("group by ".toList).isPrefixOf (("offset ".toList ++ tok).map Char.toLower) = false := by
    rw [hlow]; exact isPrefixOf_cons_ne _ _ (by decide)
  have hS : ("select *".toList).isPrefixOf (("offset ".toList ++ tok).map Char.toLower) = false := by
    rw [hlow]; exact isPrefixOf_cons_ne _ _ (by decide)
  have hL : ("limit ".toList).isPrefixOf (("offset ".toList ++ tok).map Char.toLower) = false := by
    rw [hlow]; exact isPrefixOf_cons_ne _ _ (by decide)
  have hO : ("offset ".toList).isPrefixOf (("offset ".toList ++ tok).map Char.toLower) = true := by
    rw [List.map_append, show ("offset ".toList).map Char.toLower = "offset ".toList from rfl]
    exact isPrefixOf_self_append _ _
  have hdrop : ("offset ".toList ++ tok).drop 7 = tok := by
    rw [show (7 : Nat) = ("offset ".toList).length from rfl]
    exact List.drop_left _ _
  have hstok : stripWs tok = tok := stripWs_eq_self h1 h2
  simp only [parseStep, hW, hC, hG, hS, hL, hO, hdrop, hstok]
  simp

/-- Stripping and pipe-freeness transfer from a stripped token to the whole
single-clause part. -/
theorem part_facts (kw : List Char) (c : Char) (tok : List Char)
    (hkw : kw = c :: kw.tail) (hc : isPySpace c = false)
    (hkwp : ¬ '|' ∈ kw)
    (hne : tok ≠ []) (hp : ¬ '|' ∈ tok)
    (h2 : tok.reverse.dropWhile isPySpace = tok.reverse) :
    (¬ '|' ∈ kw ++ tok) ∧ stripWs (kw ++ tok) = kw ++ tok := by
  constructor
  · intro hmem
    rcases List.mem_append.mp hmem with h | h
    · exact hkwp h
    · exact hp h
  · rw [hkw]
    exact stripWs_keyword c kw.tail tok hc hne h2

/-- On a non-empty frame, run_query parses then executes. -/
theorem run_query_nonempty (df : DataFrame) (dsl : String) (hne : df.rows ≠ []) :
    run_query df dsl =
      match parseDsl dsl with
      | .ok st => execQuery df st
      | .error e => .error e := by
  have hie : df.rows.isEmpty = false := by
    cases h : df.rows with
    | nil => exact absurd h hne
    | cons a t => rfl
  unfold run_query
  rw [hie]
  simp only [Bool.false_eq_true, if_false]
  cases parseDsl dsl <;> rfl

/-- A value returned by one scan group originates in a scalar entry of the
event, stripped and stringified. -/
theorem scanGroup_val {ev : RawEvent} {pfx : String} {sufs : List String}
    {pr : Option String} {prefer : Bool} {vr : String × Option String}
    (h : scanGroup ev pfx sufs pr prefer = some vr) :
    ∃ kv, kv ∈ ev ∧ is_scalar kv.2 = true ∧
      vr.1 = String.mk (stripWs (pyStr kv.2).toList) := by
  unfold scanGroup at h
  cases hfm : firstMinLen (scanHits ev pfx sufs pr prefer) with
  | none => rw [hfm] at h; exact absurd h (by simp)
  | some hh =>
      rw [hfm] at h
      cases Option.some.inj h
      obtain ⟨kv, hkv, _, _, hsc, _, hval⟩ := mem_scanHits (firstMinLen_mem hfm)
      exact ⟨kv, hkv, hsc, hval⟩

/-- When every row carries a non-null event_id, the agg count of a group
coincides with its size. -/
theorem aggCount_eq_size (df : DataFrame) (cols : List String) (k : List Cell)
    (hid : ∀ r ∈ df.rows, (getCell r "event_id").isSome = true) :
    aggCountOfKey df cols k = sizeOfKey df cols k := by
  unfold aggCountOfKey sizeOfKey
  have hfc : df.rows.filter (fun r => decide (keyOf cols r = k ∧ (getCell r "event_id").isSome = true)) =
      df.rows.filter (fun r => decide (keyOf cols r = k)) := by
    refine List.filter_congr (fun r hr => ?_)
    have hb := hid r hr
    by_cases hk : keyOf cols r = k
    · simp [hk, hb]
    · simp [hk]
  have hcnt : (df.rows.map (keyOf cols)).countP (fun x => x = k) =
      (df.rows.filter (fun r => decide (keyOf cols r = k))).length := by
    rw [List.countP_map, ← List.countP_eq_length_filter]
    rfl
  rw [hcnt, ← hfc]

/-- The count cell of a grouped output row reads back the group count. -/
theorem groupCount_mkGroupRow (cols : List String) (k : List Cell) (n : Nat) :
    groupCount (mkGroupRow cols k n) = n := by
  unfold groupCount mkGroupRow
  rw [List.getLast?_concat]
  simp

/-! ## Claim theorems -/

set_option maxRecDepth 10000

/-- C1: normalize_events does not preserve raw keys as dynamic columns.
At event_001 of the repository's own test_dynamic_fields.py the raw keys
custom_field_1 and output__263780428__text are dropped: they are neither
columns of the normalized frame nor fields of its row, so a select * row
cannot contain them, although the repository's tests require the
output__263780428__text column to exist. -/
theorem C1_normalize_drops_dynamic_columns :
    "custom_field_1" ∈ evDyn.map Prod.fst ∧
    "output__263780428__text" ∈ evDyn.map Prod.fst ∧
    "custom_field_1" ∉ (normalize_events [("event_001", evDyn)]).1.columns ∧
    "output__263780428__text" ∉ (normalize_events [("event_001", evDyn)]).1.columns ∧
    (∀ r ∈ (normalize_events [("event_001", evDyn)]).1.rows,
        "custom_field_1" ∉ r.map Prod.fst ∧ "output__263780428__text" ∉ r.map Prod.fst) := by
  decide

/-- C2: on the four-event dataset of test_dynamic_fields.py, where the two
Schedule events carry isfire = "yes", the documented query
where event_name == "Schedule" and isfire == true returns zero rows (the
string cell "yes" never equals the boolean literal), not the two ids the
spec requires. -/
theorem C2_schedule_isfire_query_returns_no_rows :
    getCell (normalizeRow "event_001" evDyn) "event_name" = some (.vstr "Schedule") ∧
    getCell (normalizeRow "event_001" evDyn) "isfire" = some (.vstr "yes") ∧
    getCell (normalizeRow "event_004" evDyn4) "event_name" = some (.vstr "Schedule") ∧
    getCell (normalizeRow "event_004" evDyn4) "isfire" = some (.vstr "yes") ∧
    run_query df4 dslSchedule =
      .ok { rows := [],
            meta := { rowsMeta := some 0, total_rows := some 0, limit := some (some 100),
                      offset := some 0, note := some "default limit applied" } } := by
  decide

/-- C3 counterexample: the email canonical field is resolved by a
direction-insensitive suffix scan in which the later input-direction key
overwrites the earlier output-direction key, so the input value — not the
output value — is returned although both match with scalar values. -/
theorem C3_counterexample_input_overrides_output :
    ("output__22__primary_email", PyVal.vstr "out@example.com") ∈ evBothDirs ∧
    ("input__11__primary_email", PyVal.vstr "in@example.com") ∈ evBothDirs ∧
    strEndsWith "output__22__primary_email" "__primary_email" = true ∧
    strEndsWith "input__11__primary_email" "__primary_email" = true ∧
    getCell (normalizeRow "x" evBothDirs) "email" = some (.vstr "in@example.com") := by
  decide

/-- C3 (amended): the four-step output-before-input ladder is implemented
by the suffix-set resolver _first_io_scalar: whenever any output-direction
key matches the suffix set with a scalar value, the value it returns comes
from an output-direction key, never from an input-direction key. -/
theorem C3_first_io_scalar_output_beats_input (ev : RawEvent) (sufs : List String)
    (pr : Option String)
    (h : ∃ kv, kv ∈ ev ∧ strStartsWith kv.1 "output__" = true ∧
        suffixAny sufs kv.1 = true ∧ is_scalar kv.2 = true) :
    ∃ kv, kv ∈ ev ∧ strStartsWith kv.1 "output__" = true ∧ suffixAny sufs kv.1 = true ∧
      is_scalar kv.2 = true ∧
      (first_io_scalar ev sufs pr).1 = some (String.mk (stripWs (pyStr kv.2).toList)) := by
  obtain ⟨kv0, hkv0, hs0, hsuf0, hsc0⟩ := h
  have hhit0 : (⟨kv0.1.toList.length, kv0.1, String.mk (stripWs (pyStr kv0.2).toList),
      keyRoot kv0.1⟩ : Hit) ∈ scanHits ev "output__" sufs pr false :=
    scanHits_mem hkv0 hs0 hsuf0 hsc0
  unfold first_io_scalar
  cases h1 : scanGroup ev "output__" sufs pr true with
  | some vr =>
      unfold scanGroup at h1
      cases hfm : firstMinLen (scanHits ev "output__" sufs pr true) with
      | none => rw [hfm] at h1; exact absurd h1 (by simp)
      | some hh =>
          rw [hfm] at h1
          cases Option.some.inj h1
          obtain ⟨kv, hkv, hsw, hsuf, hsc, _, hval⟩ := mem_scanHits (firstMinLen_mem hfm)
          exact ⟨kv, hkv, hsw, hsuf, hsc, by simp only []; rw [hval]⟩
  | none =>
      cases h2 : scanGroup ev "output__" sufs pr false with
      | some vr =>
          unfold scanGroup at h2
          cases hfm : firstMinLen (scanHits ev "output__" sufs pr false) with
          | none => rw [hfm] at h2; exact absurd h2 (by simp)
          | some hh =>
              rw [hfm] at h2
              cases Option.some.inj h2
              obtain ⟨kv, hkv, hsw, hsuf, hsc, _, hval⟩ := mem_scanHits (firstMinLen_mem hfm)
              exact ⟨kv, hkv, hsw, hsuf, hsc, by simp only []; rw [hval]⟩
      | none =>
          exfalso
          unfold scanGroup at h2
          cases hfm : firstMinLen (scanHits ev "output__" sufs pr false) with
          | none =>
              have : scanHits ev "output__" sufs pr false = [] := by
                cases hsh : scanHits ev "output__" sufs pr false with
                | nil => rfl
                | cons a t =>
                    have := @firstMinLen_isSome (a :: t) (by simp)
                    rw [← hsh, hfm] at this
                    exact absurd this (by simp)
              rw [this] at hhit0
              exact absurd hhit0 (List.not_mem_nil _)
          | some hh => rw [hfm] at h2; exact absurd h2 (by simp)

/-- C3 witness: on an event carrying isfire in both directions, the
suffix-set resolver returns the output-direction value. -/
theorem C3_witness :
    ∃ kv, kv ∈ evBothFire ∧ strStartsWith kv.1 "output__" = true ∧
      suffixAny ["isfire"] kv.1 = true ∧ is_scalar kv.2 = true ∧
      (first_io_scalar evBothFire ["isfire"] Option.none).1 =
        some (String.mk (stripWs (pyStr kv.2).toList)) :=
  C3_first_io_scalar_output_beats_input evBothFire ["isfire"] Option.none
    ⟨("output__22__isfire", PyVal.vstr "yes"), by decide⟩

/-- C4 counterexample: with preferred root 77, the longer preferred-root
key wins because _first_output_scalar returns the first match in iteration
order inside the preferred-root group; the shorter candidate's value is
not returned. -/
theorem C4_counterexample_preferred_group_not_shortest :
    strStartsWith "output__77__deep__event_name" "output__77__" = true ∧
    strStartsWith "output__77__event_name" "output__77__" = true ∧
    strEndsWith "output__77__deep__event_name" "__event_name" = true ∧
    strEndsWith "output__77__event_name" "__event_name" = true ∧
    "output__77__event_name".toList.length < "output__77__deep__event_name".toList.length ∧
    first_output_scalar evPreferLen "event_name" (some "77") = (some "long", some "77") ∧
    first_output_scalar evPreferLen "event_name" (some "77") ≠ (some "short", some "77") := by
  decide

/-- C4 (amended): within-group shortest-key precedence holds in every group
scanned by _first_io_scalar (all four ladder steps, preferred root
included) and in the any-output group of _first_output_scalar; in the
preferred-root branch of _first_output_scalar the first key in iteration
order wins instead. -/
theorem C4_shortest_key_amended :
    (∀ (ev : RawEvent) (pfx : String) (sufs : List String) (pr : Option String)
        (prefer : Bool) (h : Hit),
        firstMinLen (scanHits ev pfx sufs pr prefer) = some h →
        ∀ h' ∈ scanHits ev pfx sufs pr prefer, h.len ≤ h'.len) ∧
    (∀ (ev : RawEvent) (suffix : String) (pr : Option String) (v : String)
        (r : Option String),
        rootTruthy pr = false →
        first_output_scalar ev suffix pr = (some v, r) →
        ∃ kv, kv ∈ ev ∧ strStartsWith kv.1 "output__" = true ∧
          strEndsWith kv.1 ("__" ++ suffix) = true ∧ is_scalar kv.2 = true ∧
          v = pyStr kv.2 ∧
          ∀ kv' ∈ ev, strStartsWith kv'.1 "output__" = true →
            strEndsWith kv'.1 ("__" ++ suffix) = true → is_scalar kv'.2 = true →
            kv.1.toList.length ≤ kv'.1.toList.length) := by
  constructor
  · intro ev pfx sufs pr prefer h he h' hh'
    exact firstMinLen_min he h' hh'
  · intro ev suffix pr v r hroot heq
    unfold first_output_scalar at heq
    rw [hroot] at heq
    simp only [Bool.false_eq_true, if_false] at heq
    cases hfm : firstMinLen (outputHits ev suffix) with
    | none => rw [hfm] at heq; exact absurd heq (by simp)
    | some hh =>
        rw [hfm] at heq
        obtain ⟨hv, hr⟩ := Prod.mk.injEq .. ▸ heq
        obtain ⟨kv, hkv, hsw, hsuf, hsc, hlen, hval⟩ := mem_outputHits (firstMinLen_mem hfm)
        refine ⟨kv, hkv, hsw, hsuf, hsc, ?_, ?_⟩
        · rw [← hval]; exact (Option.some.inj hv).symm
        · intro kv' hkv' hsw' hsuf' hsc'
          have hmem' := outputHits_mem hkv' hsw' hsuf' hsc'
          have := firstMinLen_min hfm _ hmem'
          rw [← hlen]
          exact this

/-- C4 witness: concrete instances of both amended parts: the single-hit
output scan of the padded event is trivially minimal, and with no
preferred root the resolver picks the shortest candidate of evPreferLen. -/
theorem C4_witness :
    (∀ h' ∈ scanHits evPadded "output__" ["isfire"] Option.none false,
        (17 : Nat) ≤ h'.len) ∧
    (∃ kv, kv ∈ evPreferLen ∧ strStartsWith kv.1 "output__" = true ∧
      strEndsWith kv.1 ("__" ++ "event_name") = true ∧ is_scalar kv.2 = true ∧
      "short" = pyStr kv.2 ∧
      ∀ kv' ∈ evPreferLen, strStartsWith kv'.1 "output__" = true →
        strEndsWith kv'.1 ("__" ++ "event_name") = true → is_scalar kv'.2 = true →
        kv.1.toList.length ≤ kv'.1.toList.length) := by
  constructor
  · have h := C4_shortest_key_amended.1 evPadded "output__" ["isfire"] Option.none false
      ⟨17, "output__1__isfire", "yes", some "1"⟩ (by decide)
    exact h
  · exact C4_shortest_key_amended.2 evPreferLen "event_name" Option.none "short" (some "77")
      (by decide) (by decide)

/-- C5 counterexample: _first_output_scalar returns str(v) without
stripping: resolving isfire from the raw value " yes " yields " yes ",
not "yes". -/
theorem C5_counterexample_output_scalar_untrimmed :
    first_output_scalar evPadded "isfire" Option.none = (some " yes ", some "1") ∧
    (" yes " : String) ≠ "yes" := by
  decide

/-- C5 (amended): only the suffix-set resolver _first_io_scalar coerces the
matched scalar to string and trims surrounding whitespace; every value it
returns is str(v).strip() of some scalar entry of the event. -/
theorem C5_first_io_scalar_trims (ev : RawEvent) (sufs : List String)
    (pr : Option String) (v : String) (r : Option String)
    (h : first_io_scalar ev sufs pr = (some v, r)) :
    ∃ kv, kv ∈ ev ∧ is_scalar kv.2 = true ∧
      v = String.mk (stripWs (pyStr kv.2).toList) := by
  unfold first_io_scalar at h
  cases h1 : scanGroup ev "output__" sufs pr true with
  | some vr =>
      rw [h1] at h
      obtain ⟨kv, hkv, hsc, hval⟩ := scanGroup_val h1
      obtain ⟨hv, _⟩ := Prod.mk.injEq .. ▸ h
      exact ⟨kv, hkv, hsc, by rw [← hval]; exact (Option.some.inj hv).symm⟩
  | none =>
      rw [h1] at h
      cases h2 : scanGroup ev "output__" sufs pr false with
      | some vr =>
          rw [h2] at h
          obtain ⟨kv, hkv, hsc, hval⟩ := scanGroup_val h2
          obtain ⟨hv, _⟩ := Prod.mk.injEq .. ▸ h
          exact ⟨kv, hkv, hsc, by rw [← hval]; exact (Option.some.inj hv).symm⟩
      | none =>
          rw [h2] at h
          cases h3 : scanGroup ev "input__" sufs pr true with
          | some vr =>
              rw [h3] at h
              obtain ⟨kv, hkv, hsc, hval⟩ := scanGroup_val h3
              obtain ⟨hv, _⟩ := Prod.mk.injEq .. ▸ h
              exact ⟨kv, hkv, hsc, by rw [← hval]; exact (Option.some.inj hv).symm⟩
          | none =>
              rw [h3] at h
              cases h4 : scanGroup ev "input__" sufs pr false with
              | some vr =>
                  rw [h4] at h
                  obtain ⟨kv, hkv, hsc, hval⟩ := scanGroup_val h4
                  obtain ⟨hv, _⟩ := Prod.mk.injEq .. ▸ h
                  exact ⟨kv, hkv, hsc, by rw [← hval]; exact (Option.some.inj hv).symm⟩
              | none =>
                  rw [h4] at h
                  exact absurd h (by simp)

/-- C5 witness: resolving the padded input-direction isfire value " yes "
through the suffix-set resolver yields the trimmed "yes". -/
theorem C5_witness :
    first_io_scalar evPaddedIn ["isfire"] Option.none = (some "yes", some "1") ∧
    (∃ kv, kv ∈ evPaddedIn ∧ is_scalar kv.2 = true ∧
      "yes" = String.mk (stripWs (pyStr kv.2).toList)) :=
  ⟨by decide,
   C5_first_io_scalar_trims evPaddedIn ["isfire"] Option.none "yes" (some "1") (by decide)⟩

/-- C6 counterexample: on the empty dataset, run_query short-circuits to a
meta object holding only the no-data note: the total row count and the
effective limit and offset are absent, contradicting the claim for the
empty dataset. -/
theorem C6_counterexample_empty_dataset_meta :
    run_query dfEmpty "select *" = .ok { rows := [], meta := { note := some "no data" } } ∧
    ({ note := some "no data" } : QueryMeta).total_rows = Option.none ∧
    ({ note := some "no data" } : QueryMeta).limit = Option.none ∧
    ({ note := some "no data" } : QueryMeta).offset = Option.none := by
  decide

/-- C6 (amended): for every non-empty dataset and every query, the meta of
any result run_query returns carries the total matching row count and the
effective limit and offset that were applied (the limit entry holding None
for an uncapped result), and the group-by columns whenever the parsed
query grouped; the empty dataset instead short-circuits to the bare
no-data note. -/
theorem C6_meta_reports_totals_nonempty (df : DataFrame) (dsl : String)
    (res : QueryResult) (hne : df.rows ≠ []) (hok : run_query df dsl = .ok res) :
    res.meta.total_rows.isSome ∧ res.meta.limit.isSome ∧ res.meta.offset.isSome ∧
    (∀ st, parseDsl dsl = .ok st → st.group_by.isSome →
      res.meta.group_by = st.group_by) := by
  rw [run_query_nonempty df dsl hne] at hok
  cases hp : parseDsl dsl with
  | error e => rw [hp] at hok; exact absurd hok (by simp)
  | ok st =>
      rw [hp] at hok
      simp only [] at hok
      have hconc : res.meta.total_rows.isSome ∧ res.meta.limit.isSome ∧
          res.meta.offset.isSome ∧
          (st.group_by.isSome → res.meta.group_by = st.group_by) := by
        unfold execQuery at hok
        cases ha : applyWhere df st.whereClause with
        | error e => rw [ha] at hok; exact absurd hok (by simp)
        | ok dff =>
            rw [ha] at hok
            simp only [] at hok
            cases hg : st.group_by with
            | some cols =>
                rw [hg] at hok
                simp only [] at hok
                by_cases hwc : st.want_count
                · rw [if_pos hwc] at hok
                  by_cases hca : cols.all (fun c => dff.columns.contains c)
                  · rw [if_pos hca] at hok
                    cases Except.ok.inj hok
                    exact ⟨rfl, rfl, rfl, fun _ => rfl⟩
                  · rw [if_neg hca] at hok
                    exact absurd hok (by simp)
                · rw [if_neg hwc] at hok
                  by_cases hca : cols.all (fun c => dff.columns.contains c)
                  · rw [if_pos hca] at hok
                    by_cases hcid : dff.columns.contains "event_id"
                    · rw [if_pos hcid] at hok
                      cases Except.ok.inj hok
                      exact ⟨rfl, rfl, rfl, fun _ => rfl⟩
                    · rw [if_neg hcid] at hok
                      exact absurd hok (by simp)
                  · rw [if_neg hca] at hok
                    exact absurd hok (by simp)
            | none =>
                rw [hg] at hok
                simp only [] at hok
                by_cases hsel : st.select_all
                · rw [if_pos hsel] at hok
                  cases Except.ok.inj hok
                  exact ⟨rfl, rfl, rfl, fun hiso => absurd hiso (by simp)⟩
                · rw [if_neg hsel] at hok
                  by_cases hlo : st.limit_n = Option.none ∧ st.offset_n = 0
                  · rw [if_pos hlo] at hok
                    cases Except.ok.inj hok
                    exact ⟨rfl, rfl, rfl, fun hiso => absurd hiso (by simp)⟩
                  · rw [if_neg hlo] at hok
                    cases Except.ok.inj hok
                    exact ⟨rfl, rfl, rfl, fun hiso => absurd hiso (by simp)⟩
      refine ⟨hconc.1, hconc.2.1, hconc.2.2.1, ?_⟩
      intro st' hst' hiso
      have : st' = st := (Except.ok.inj hst').symm
      subst this
      exact hconc.2.2.2 hiso

/-- C6 witness: a grouped query over the two-event frame reports the group
count, the uncapped limit, the zero offset and the grouping column. -/
theorem C6_witness :
    (({ rows := [[("status", some (PyVal.vstr "success")), ("count", some (PyVal.vint 1))],
                 [("status", Option.none), ("count", some (PyVal.vint 1))]],
        meta := { countFlag := some true, group_by := some ["status"],
                  total_rows := some 2, limit := some Option.none,
                  offset := some 0 } } : QueryResult)).meta.total_rows.isSome ∧
    (({ rows := [[("status", some (PyVal.vstr "success")), ("count", some (PyVal.vint 1))],
                 [("status", Option.none), ("count", some (PyVal.vint 1))]],
        meta := { countFlag := some true, group_by := some ["status"],
                  total_rows := some 2, limit := some Option.none,
                  offset := some 0 } } : QueryResult)).meta.limit.isSome ∧
    (({ rows := [[("status", some (PyVal.vstr "success")), ("count", some (PyVal.vint 1))],
                 [("status", Option.none), ("count", some (PyVal.vint 1))]],
        meta := { countFlag := some true, group_by := some ["status"],
                  total_rows := some 2, limit := some Option.none,
                  offset := some 0 } } : QueryResult)).meta.offset.isSome ∧
    (∀ st, parseDsl "count by status" = .ok st → st.group_by.isSome →
      (({ rows := [[("status", some (PyVal.vstr "success")), ("count", some (PyVal.vint 1))],
                   [("status", Option.none), ("count", some (PyVal.vint 1))]],
          meta := { countFlag := some true, group_by := some ["status"],
                    total_rows := some 2, limit := some Option.none,
                    offset := some 0 } } : QueryResult)).meta.group_by = st.group_by) :=
  C6_meta_reports_totals_nonempty dfGrp "count by status" _ (by decide) (by decide)

/-- Executing with limit 0 and default clauses yields no rows. -/
theorem execQuery_limit0 (df : DataFrame) :
    execQuery df { limit_n := some 0 } =
      .ok { rows := [],
            meta := { rowsMeta := some 0, total_rows := some df.rows.length,
                      limit := some (some 0), offset := some 0 } } := by
  unfold execQuery
  simp only [applyWhere]
  simp [windowRows]

/-- C7 counterexample: on the empty dataset a malformed limit token is
silently ignored: run_query short-circuits to the no-data result instead
of raising the hard error the claim requires for every query. -/
theorem C7_counterexample_empty_dataset_ignores_token :
    run_query dfEmpty "limit abc" = .ok { rows := [], meta := { note := some "no data" } } := by
  decide

/-- C7 (amended): for every non-empty dataset, a limit clause whose
stripped token is not an integer and not the sentinel all or *, or an
offset clause whose stripped token is not an integer, makes run_query
raise the hard ValueError naming the offending token; the empty dataset
short-circuits before parsing. -/
theorem C7_malformed_pagination_token_errors (df : DataFrame) (tok : List Char)
    (hne : df.rows ≠ []) (htne : tok ≠ []) (hp : ¬ '|' ∈ tok)
    (h1 : tok.dropWhile isPySpace = tok)
    (h2 : tok.reverse.dropWhile isPySpace = tok.reverse)
    (hall : ¬ tok.map Char.toLower = "all".toList)
    (hstar : ¬ tok.map Char.toLower = "*".toList)
    (hint : pyIntChars tok = Option.none) :
    run_query df (String.mk ("limit ".toList ++ tok)) =
      .error ("Invalid LIMIT value: " ++ String.mk tok) ∧
    run_query df (String.mk ("offset ".toList ++ tok)) =
      .error ("Invalid OFFSET value: " ++ String.mk tok) := by
  constructor
  · obtain ⟨hnp, hst⟩ := part_facts "limit ".toList 'l' tok (by decide) (by decide)
      (by decide) htne hp h2
    rw [run_query_nonempty df _ hne]
    rw [parseDsl_single _ hnp hst]
    rw [parseStep_limit_tok tok h1 h2]
    rw [if_neg (fun hc => hc.elim hall hstar)]
    rw [hint]
  · obtain ⟨hnp, hst⟩ := part_facts "offset ".toList 'o' tok (by decide) (by decide)
      (by decide) htne hp h2
    rw [run_query_nonempty df _ hne]
    rw [parseDsl_single _ hnp hst]
    rw [parseStep_offset_tok tok h1 h2]
    rw [hint]

/-- C7 witness: the token abc on the one-event frame raises both errors. -/
theorem C7_witness :
    run_query df1 (String.mk ("limit ".toList ++ "abc".toList)) =
      .error ("Invalid LIMIT value: " ++ String.mk "abc".toList) ∧
    run_query df1 (String.mk ("offset ".toList ++ "abc".toList)) =
      .error ("Invalid OFFSET value: " ++ String.mk "abc".toList) :=
  C7_malformed_pagination_token_errors df1 "abc".toList (by decide) (by decide)
    (by decide) (by decide) (by decide) (by decide) (by decide) (by decide)

/-- C10: a limit or offset clause carrying a token that parses to a
negative integer raises no error on a non-empty dataset: the value is
clamped to 0 by max(0, int(token)), so the query behaves exactly like
limit 0 (returning zero rows) respectively offset 0. -/
theorem C10_negative_pagination_clamped (df : DataFrame) (tok : List Char) (m : Int)
    (hne : df.rows ≠ []) (htne : tok ≠ []) (hp : ¬ '|' ∈ tok)
    (h1 : tok.dropWhile isPySpace = tok)
    (h2 : tok.reverse.dropWhile isPySpace = tok.reverse)
    (hall : ¬ tok.map Char.toLower = "all".toList)
    (hstar : ¬ tok.map Char.toLower = "*".toList)
    (hint : pyIntChars tok = some m) (hneg : m < 0) :
    run_query df (String.mk ("limit ".toList ++ tok)) = run_query df "limit 0" ∧
    run_query df (String.mk ("limit ".toList ++ tok)) =
      .ok { rows := [],
            meta := { rowsMeta := some 0, total_rows := some df.rows.length,
                      limit := some (some 0), offset := some 0 } } ∧
    run_query df (String.mk ("offset ".toList ++ tok)) = run_query df "offset 0" := by
  have hmax : (max 0 m).toNat = 0 := by
    rw [max_eq_left (Int.le_of_lt hneg)]
    rfl
  have hlimside : run_query df (String.mk ("limit ".toList ++ tok)) =
      execQuery df { limit_n := some 0 } := by
    obtain ⟨hnp, hst⟩ := part_facts "limit ".toList 'l' tok (by decide) (by decide)
      (by decide) htne hp h2
    rw [run_query_nonempty df _ hne]
    rw [parseDsl_single _ hnp hst]
    rw [parseStep_limit_tok tok h1 h2]
    rw [if_neg (fun hc => hc.elim hall hstar)]
    rw [hint]
    simp only [hmax]
  refine ⟨?_, ?_, ?_⟩
  · rw [hlimside, run_query_nonempty df "limit 0" hne,
      show parseDsl "limit 0" = .ok { limit_n := some 0 } from by decide]
  · rw [hlimside, execQuery_limit0]
  · obtain ⟨hnp, hst⟩ := part_facts "offset ".toList 'o' tok (by decide) (by decide)
      (by decide) htne hp h2
    rw [run_query_nonempty df _ hne]
    rw [parseDsl_single _ hnp hst]
    rw [parseStep_offset_tok tok h1 h2]
    rw [hint]
    simp only [hmax]
    rw [run_query_nonempty df "offset 0" hne,
      show parseDsl "offset 0" = .ok { offset_n := 0 } from by decide]

/-- C10 witness: limit -5 and offset -5 on the one-event frame behave like
limit 0 and offset 0, with zero rows returned for the limit. -/
theorem C10_witness :
    run_query df1 (String.mk ("limit ".toList ++ "-5".toList)) = run_query df1 "limit 0" ∧
    run_query df1 (String.mk ("limit ".toList ++ "-5".toList)) =
      .ok { rows := [],
            meta := { rowsMeta := some 0, total_rows := some df1.rows.length,
                      limit := some (some 0), offset := some 0 } } ∧
    run_query df1 (String.mk ("offset ".toList ++ "-5".toList)) = run_query df1 "offset 0" :=
  C10_negative_pagination_clamped df1 "-5".toList (-5) (by decide) (by decide) (by decide)
    (by decide) (by decide) (by decide) (by decide) (by decide) (by decide)

/-- C8: for an unpaginated count by or group by query over a frame whose
rows all carry a non-null event_id (as every normalize_events frame does),
the returned rows are exactly the dropna=False group table: rows with a
missing grouping value form their own null-keyed group, every filtered
row's key appears among the group keys, and the per-group counts sum to
the number of rows that passed the filter. -/
theorem C8_null_groups_and_count_sum (df : DataFrame) (dsl : String) (st : ParseState)
    (cols : List String) (res : QueryResult) (dff : DataFrame)
    (hparse : parseDsl dsl = .ok st)
    (hg : st.group_by = some cols)
    (hlim : st.limit_n = Option.none) (hoff : st.offset_n = 0)
    (hok : run_query df dsl = .ok res)
    (hw : applyWhere df st.whereClause = .ok dff)
    (hid : ∀ r ∈ df.rows, (getCell r "event_id").isSome = true) :
    res.rows = countByTable dff cols ∧
    (res.rows.map groupCount).sum = dff.rows.length ∧
    (∀ r ∈ dff.rows, keyOf cols r ∈ groupKeysOf dff cols) := by
  have hid' : ∀ r ∈ dff.rows, (getCell r "event_id").isSome = true :=
    fun r hr => hid r (applyWhere_rows_sub hw r hr)
  have hsum : ((countByTable dff cols).map groupCount).sum = dff.rows.length := by
    unfold countByTable
    rw [List.map_map]
    have hcongr : (groupKeysOf dff cols).map (groupCount ∘ fun k => mkGroupRow cols k (sizeOfKey dff cols k)) =
        (groupKeysOf dff cols).map (fun k => (dff.rows.map (keyOf cols)).countP (fun y => y = k)) := by
      refine List.map_congr_left (fun k _ => ?_)
      show groupCount (mkGroupRow cols k (sizeOfKey dff cols k)) = _
      rw [groupCount_mkGroupRow]
      rfl
    rw [hcongr]
    rw [sum_counts_over_cover (dff.rows.map (keyOf cols)) (groupKeysOf dff cols)
      (firstDedup_nodup _) (fun a ha => (mem_firstDedup _ a).mpr ha)]
    exact List.length_map _ _
  have hmemkeys : ∀ r ∈ dff.rows, keyOf cols r ∈ groupKeysOf dff cols := by
    intro r hr
    exact (mem_firstDedup _ _).mpr (List.mem_map.mpr ⟨r, hr, rfl⟩)
  by_cases hemp : df.rows = []
  · have hdffnil : dff.rows = [] := by
      cases hd : dff.rows with
      | nil => rfl
      | cons a t =>
          have := applyWhere_rows_sub hw a (by rw [hd]; exact List.mem_cons_self a t)
          rw [hemp] at this
          exact absurd this (List.not_mem_nil a)
    have hres : res = { rows := [], meta := { note := some "no data" } } := by
      unfold run_query at hok
      rw [if_pos (by simp [hemp])] at hok
      exact (Except.ok.inj hok).symm
    have htab : countByTable dff cols = [] := by
      unfold countByTable groupKeysOf
      rw [hdffnil]
      rfl
    refine ⟨by rw [hres, htab], ?_, ?_⟩
    · rw [hres, hdffnil]; rfl
    · intro r hr; rw [hdffnil] at hr; exact absurd hr (List.not_mem_nil r)
  · rw [run_query_nonempty df dsl hemp, hparse] at hok
    simp only [] at hok
    unfold execQuery at hok
    rw [hw] at hok
    simp only [] at hok
    rw [hg] at hok
    simp only [] at hok
    have hwin : (st.limit_n = Option.none ∧ st.offset_n = 0) := ⟨hlim, hoff⟩
    by_cases hwc : st.want_count
    · rw [if_pos hwc] at hok
      by_cases hca : cols.all (fun c => dff.columns.contains c)
      · rw [if_pos hca, if_pos hwin] at hok
        have hres : res.rows = countByTable dff cols := by
          cases Except.ok.inj hok
          rfl
        exact ⟨hres, by rw [hres]; exact hsum, hmemkeys⟩
      · rw [if_neg hca] at hok
        exact absurd hok (by simp)
    · rw [if_neg hwc] at hok
      by_cases hca : cols.all (fun c => dff.columns.contains c)
      · rw [if_pos hca] at hok
        by_cases hcid : dff.columns.contains "event_id"
        · rw [if_pos hcid, if_pos hwin] at hok
          have htbl : groupByTable dff cols = countByTable dff cols := by
            unfold groupByTable countByTable
            refine List.map_congr_left (fun k _ => ?_)
            rw [aggCount_eq_size dff cols k hid']
          have hres : res.rows = countByTable dff cols := by
            cases Except.ok.inj hok
            exact htbl
          exact ⟨hres, by rw [hres]; exact hsum, hmemkeys⟩
        · rw [if_neg hcid] at hok
          exact absurd hok (by simp)
      · rw [if_neg hca] at hok
        exact absurd hok (by simp)

/-- C8 witness: count by status over the two-event frame, whose second row
has a null status, yields the success group and the null group with counts
summing to both rows, and both rows' keys appear among the group keys. -/
theorem C8_witness :
    (({ rows := [[("status", some (PyVal.vstr "success")), ("count", some (PyVal.vint 1))],
                 [("status", Option.none), ("count", some (PyVal.vint 1))]],
        meta := { countFlag := some true, group_by := some ["status"],
                  total_rows := some 2, limit := some Option.none,
                  offset := some 0 } } : QueryResult)).rows = countByTable dfGrp ["status"] ∧
    ((({ rows := [[("status", some (PyVal.vstr "success")), ("count", some (PyVal.vint 1))],
                   [("status", Option.none), ("count", some (PyVal.vint 1))]],
         meta := { countFlag := some true, group_by := some ["status"],
                   total_rows := some 2, limit := some Option.none,
                   offset := some 0 } } : QueryResult)).rows.map groupCount).sum =
      dfGrp.rows.length ∧
    (∀ r ∈ dfGrp.rows, keyOf ["status"] r ∈ groupKeysOf dfGrp ["status"]) :=
  C8_null_groups_and_count_sum dfGrp "count by status"
    { group_by := some ["status"], want_count := true } ["status"] _ dfGrp
    (by decide) (by decide) (by decide) (by decide) (by decide) (by decide) (by decide)

/-- C9: the cache size bound and eviction policy of QueryCache.set: on a
cache within its bound (positive max_size, duplicate-free keys), set
succeeds, the result still holds at most max_size entries, and when the
cache was at capacity the surviving entries besides the newly set key are
exactly old entries other than one whose insertion timestamp is minimal —
the globally oldest-by-insertion entry is evicted, independent of access
order. -/
theorem C9_cache_bound_evicts_oldest (c : QueryCache) (key result : String) (now : Nat)
    (hfit : c.cache.length ≤ c.max_size) (hpos : 1 ≤ c.max_size)
    (hnd : (c.cache.map Prod.fst).Nodup) :
    ∃ c', QueryCache.set c key result now = some c' ∧
      c'.cache.length ≤ c.max_size ∧
      (c.cache.length = c.max_size →
        ∃ k0 e0, (k0, e0) ∈ c.cache ∧
          (∀ kv ∈ c.cache, e0.timestamp ≤ kv.2.timestamp) ∧
          ∀ kv ∈ c'.cache, kv.1 = key ∨ (kv ∈ c.cache ∧ kv.1 ≠ k0)) := by
  by_cases hcap : c.cache.length ≥ c.max_size
  · have hlen : c.cache.length = c.max_size := Nat.le_antisymm hfit hcap
    have hcne : c.cache ≠ [] := by
      intro h
      rw [h] at hlen
      simp at hlen
      omega
    obtain ⟨k0, hk0⟩ : ∃ k0, oldestKey c.cache = some k0 := by
      cases ho : oldestKey c.cache with
      | none =>
          have := oldestKey_isSome hcne
          rw [ho] at this
          exact absurd this (by simp)
      | some k0 => exact ⟨k0, rfl⟩
    obtain ⟨e0, he0mem, he0min⟩ := oldestKey_spec hk0
    have hset : QueryCache.set c key result now = some
        { c with cache := dictInsert (c.cache.eraseP (fun e => e.1 = k0)) key ⟨result, now⟩ } := by
      unfold QueryCache.set
      rw [if_pos hcap, hk0]
      rfl
    have hlenerase : (c.cache.eraseP (fun e => e.1 = k0)).length = c.cache.length - 1 :=
      List.length_eraseP_of_mem he0mem (by simp)
    refine ⟨_, hset, ?_, fun _ => ⟨k0, e0, he0mem, he0min, ?_⟩⟩
    · rw [dictInsert_length]
      by_cases hin : (c.cache.eraseP (fun e => e.1 = k0)).any (fun kv => kv.1 = key)
      · rw [if_pos hin]
        omega
      · rw [if_neg hin]
        omega
    · intro kv hkv
      rcases mem_dictInsert hkv with h | h
      · exact Or.inl (by rw [h])
      · obtain ⟨hm, hne'⟩ := mem_eraseP_key hnd h
        exact Or.inr ⟨hm, hne'⟩
  · have hset : QueryCache.set c key result now =
        some { c with cache := dictInsert c.cache key ⟨result, now⟩ } := by
      unfold QueryCache.set
      rw [if_neg hcap]
      rfl
    have hlt : c.cache.length < c.max_size := Nat.lt_of_not_le hcap
    refine ⟨_, hset, ?_, fun heq => absurd heq (by omega)⟩
    rw [dictInsert_length]
    by_cases hin : c.cache.any (fun kv => kv.1 = key)
    · rw [if_pos hin]; omega
    · rw [if_neg hin]; omega

/-- C9 witness: inserting a third query into the full two-entry cache
evicts the entry with timestamp 20 — the oldest by insertion time. -/
theorem C9_witness :
    ∃ c', QueryCache.set cacheFull "qc" "rc" 99 = some c' ∧
      c'.cache.length ≤ cacheFull.max_size ∧
      (cacheFull.cache.length = cacheFull.max_size →
        ∃ k0 e0, (k0, e0) ∈ cacheFull.cache ∧
          (∀ kv ∈ cacheFull.cache, e0.timestamp ≤ kv.2.timestamp) ∧
          ∀ kv ∈ c'.cache, kv.1 = "qc" ∨ (kv ∈ cacheFull.cache ∧ kv.1 ≠ k0)) :=
  C9_cache_bound_evicts_oldest cacheFull "qc" "rc" 99 (by decide) (by decide) (by decide)

end ZapHacker
